import Mathlib

/-
Verification of the SSE stream decoder and generation-session state machine
of the DnD-Quest-Provider frontend.

The embedding models, at the level of JavaScript semantics:
  * `JSON.parse` (strict JSON grammar, last-wins duplicate object keys,
    numbers kept as their lexemes since no state update inspects a number),
  * JS string coercion as used by template literals and
    `localStorage.setItem`,
  * the incremental `TextDecoder` (UTF-8, `stream: true`, incomplete
    trailing sequences carried between chunks),
  * the frame-boundary regex `/\r?\n\r?\n/` (leftmost match, greedy `\r?`),
  * the `processStream` loop of `frontend/app` `page.tsx` (part_005) and its
    sibling (part_006), the `handleSubmit` / `handleResume` /
    `handleSelectThread` state transitions, and a small-step scheduler for
    the interleaving of several concurrently open streams.

JS strings are modelled as `List Char` (code points; every pattern the code
searches for is ASCII, so UTF-16 index arithmetic and code-point index
arithmetic agree on everything observed here).  JS values are `Json`;
`undefined` is the `none` of `JsV := Option Json`, while JS `null` is
`some Json.null`.
-/

namespace DQP

/-! ### JS string helpers -/

/-- Whitespace for the purposes of `String.prototype.trim` (the ASCII part;
the code never feeds exotic Unicode spaces into `trim`). -/
def jsWsChar (c : Char) : Bool :=
  c = ' ' || c = '\t' || c = '\n' || c = '\r' || c = '\x0b' || c = '\x0c'

/-- Strip leading JS whitespace. -/
def trimLeft : List Char → List Char
  | [] => []
  | c :: r => if jsWsChar c then trimLeft r else c :: r

/-- `String.prototype.trim`. -/
def jsTrim (l : List Char) : List Char :=
  (trimLeft (trimLeft l.reverse).reverse)

/-- First index of `pat` as a contiguous sublist of `l`
(`String.prototype.indexOf`), if any. -/
def indexOfSub (pat : List Char) : List Char → Option Nat
  | [] => if pat = [] then some 0 else none
  | c :: r =>
    if pat.isPrefixOf (c :: r) then some 0
    else (indexOfSub pat r).map (fun n => n + 1)

/-! ### JSON values -/

/-- JSON values as produced by `JSON.parse`.  Numbers are kept as their
source lexemes: no state update in the modelled code ever inspects a
numeric value. -/
inductive Json : Type
  | null : Json
  | bool (b : Bool) : Json
  | num (lexeme : List Char) : Json
  | str (s : List Char) : Json
  | arr (xs : List Json) : Json
  | obj (kvs : List (List Char × Json)) : Json

/-- Last-wins field lookup: `JSON.parse` lets a duplicated key overwrite the
earlier binding, so member access sees the last occurrence. -/
def lookupLast (k : List Char) : List (List Char × Json) → Option Json
  | [] => none
  | (k0, v0) :: rest =>
    match lookupLast k rest with
    | some v => some v
    | none => if k0 = k then some v0 else none

/-! ### JSON.parse -/

/-- Skip JSON whitespace (space, tab, newline, carriage return). -/
def skipWs : List Char → List Char
  | [] => []
  | c :: r =>
    if c = ' ' || c = '\t' || c = '\n' || c = '\r' then skipWs r else c :: r

def hexDigitVal (c : Char) : Option Nat :=
  if '0' ≤ c ∧ c ≤ '9' then some (c.toNat - '0'.toNat)
  else if 'a' ≤ c ∧ c ≤ 'f' then some (c.toNat - 'a'.toNat + 10)
  else if 'A' ≤ c ∧ c ≤ 'F' then some (c.toNat - 'A'.toNat + 10)
  else none

/-- Body of a JSON string literal, after the opening quote: returns the
decoded characters and the input following the closing quote.  Raw control
characters are rejected, exactly as by `JSON.parse`.  (A `\u` escape naming
a lone surrogate is mapped through `Char.ofNat`; no modelled input contains
one.) -/
def pStr : List Char → Option (List Char × List Char)
  | [] => none
  | '"' :: r => some ([], r)
  | '\\' :: e :: r =>
    match e, r with
    | '"', r => (pStr r).map (fun p => ('"' :: p.1, p.2))
    | '\\', r => (pStr r).map (fun p => ('\\' :: p.1, p.2))
    | '/', r => (pStr r).map (fun p => ('/' :: p.1, p.2))
    | 'b', r => (pStr r).map (fun p => ('\x08' :: p.1, p.2))
    | 'f', r => (pStr r).map (fun p => ('\x0c' :: p.1, p.2))
    | 'n', r => (pStr r).map (fun p => ('\n' :: p.1, p.2))
    | 'r', r => (pStr r).map (fun p => ('\r' :: p.1, p.2))
    | 't', r => (pStr r).map (fun p => ('\t' :: p.1, p.2))
    | 'u', h1 :: h2 :: h3 :: h4 :: r =>
      match hexDigitVal h1, hexDigitVal h2, hexDigitVal h3, hexDigitVal h4 with
      | some a, some b, some c, some d =>
        (pStr r).map (fun p => (Char.ofNat (a * 4096 + b * 256 + c * 16 + d) :: p.1, p.2))
      | _, _, _, _ => none
    | _, _ => none
  | c :: r =>
    if c.toNat < 32 then none
    else (pStr r).map (fun p => (c :: p.1, p.2))

def isDigitChar (c : Char) : Bool := '0' ≤ c ∧ c ≤ '9'

/-- Longest digit run at the front of the input. -/
def spanDigits : List Char → List Char × List Char
  | [] => ([], [])
  | c :: r =>
    if isDigitChar c then
      let p := spanDigits r
      (c :: p.1, p.2)
    else ([], c :: r)

/-- JSON number lexeme starting at the head of the input:
`-? (0 | [1-9][0-9]*) (. [0-9]+)? ([eE][+-]?[0-9]+)?`. -/
def pNum (l : List Char) : Option (List Char × List Char) := do
  let (sign, l1) := match l with
    | '-' :: r => ([('-' : Char)], r)
    | r => ([], r)
  let (int, l2) ← match l1 with
    | '0' :: r => some ([('0' : Char)], r)
    | c :: r =>
      if isDigitChar c ∧ c ≠ '0' then
        let p := spanDigits r
        some (c :: p.1, p.2)
      else none
    | [] => none
  let (frac, l3) ← match l2 with
    | '.' :: r =>
      let p := spanDigits r
      if p.1 = [] then none else some (('.' :: p.1 : List Char), p.2)
    | r => some ([], r)
  let (expo, l4) ← match l3 with
    | c :: r =>
      if c = 'e' ∨ c = 'E' then
        let (es, r2) := match r with
          | '+' :: r2 => ([('+' : Char)], r2)
          | '-' :: r2 => ([('-' : Char)], r2)
          | r2 => ([], r2)
        let p := spanDigits r2
        if p.1 = [] then none else some (c :: (es ++ p.1), p.2)
      else some ([], c :: r)
    | [] => some ([], [])
  some (sign ++ int ++ frac ++ expo, l4)

mutual

/-- One JSON value at the head of the (whitespace-skipped) input.  The fuel
only bounds bracket nesting; `parseJson` supplies more fuel than any input
can consume. -/
def pVal : Nat → List Char → Option (Json × List Char)
  | 0, _ => none
  | _ + 1, 'n' :: 'u' :: 'l' :: 'l' :: r => some (.null, r)
  | _ + 1, 't' :: 'r' :: 'u' :: 'e' :: r => some (.bool true, r)
  | _ + 1, 'f' :: 'a' :: 'l' :: 's' :: 'e' :: r => some (.bool false, r)
  | _ + 1, '"' :: r => (pStr r).map (fun p => (.str p.1, p.2))
  | fuel + 1, '[' :: r =>
    match skipWs r with
    | ']' :: r2 => some (.arr [], r2)
    | r2 => (pArrTail fuel r2).map (fun p => (.arr p.1, p.2))
  | fuel + 1, '\x7b' :: r =>
    match skipWs r with
    | '\x7d' :: r2 => some (.obj [], r2)
    | r2 => (pObjTail fuel r2).map (fun p => (.obj p.1, p.2))
  | _ + 1, l => (pNum l).map (fun p => (.num p.1, p.2))

/-- Comma-separated values up to the closing bracket. -/
def pArrTail : Nat → List Char → Option (List Json × List Char)
  | 0, _ => none
  | fuel + 1, l => do
    let (v, r) ← pVal fuel l
    match skipWs r with
    | ',' :: r2 => (pArrTail fuel (skipWs r2)).map (fun p => (v :: p.1, p.2))
    | ']' :: r2 => some ([v], r2)
    | _ => none

/-- Comma-separated `"key": value` pairs up to the closing brace. -/
def pObjTail : Nat → List Char → Option (List (List Char × Json) × List Char)
  | 0, _ => none
  | fuel + 1, l =>
    match l with
    | '"' :: r => do
      let (k, r1) ← pStr r
      match skipWs r1 with
      | ':' :: r2 => do
        let (v, r3) ← pVal fuel (skipWs r2)
        match skipWs r3 with
        | ',' :: r4 => (pObjTail fuel (skipWs r4)).map (fun p => ((k, v) :: p.1, p.2))
        | '\x7d' :: r4 => some ([(k, v)], r4)
        | _ => none
      | _ => none
    | _ => none

end

/-- `JSON.parse` on a whole string: one value, surrounded only by
whitespace. -/
def parseJson (l : List Char) : Option Json :=
  match pVal (l.length + 1) (skipWs l) with
  | some (v, rest) => if skipWs rest = [] then some v else none
  | none => none

/-! ### JS values: nullishness, truthiness, member access, string coercion -/

/-- A JS value as stored in a `useState` slot: `none` is `undefined`,
`some Json.null` is `null`. -/
abbrev JsV := Option Json

def jsvIsNullish : JsV → Bool
  | none => true
  | some .null => true
  | _ => false

/-- The string content of a JS value, when it is a string. -/
def jsvAsStr : JsV → Option (List Char)
  | some (.str s) => some s
  | _ => none

/-- Whether a JSON number lexeme denotes zero (`0`, `-0`, `0.00`, `0e9`,
...): the mantissa contains no digit other than `0`. -/
def numLexIsZero (lex : List Char) : Bool :=
  let l1 := match lex with
    | '-' :: r => r
    | r => r
  (l1.takeWhile (fun c => c ≠ 'e' ∧ c ≠ 'E')).all (fun c => c = '0' ∨ c = '.')

/-- JS truthiness of a value. -/
def jsTruthy : JsV → Bool
  | none => false
  | some .null => false
  | some (.bool b) => b
  | some (.num lex) => ¬ numLexIsZero lex
  | some (.str s) => s ≠ []
  | some (.arr _) => true
  | some (.obj _) => true

/-- Outcome of a JS member access `v.k`. -/
inductive JsGet : Type
  | threw : JsGet
  | val (v : JsV) : JsGet

/-- JS member access on a parsed JSON value: throws a `TypeError` on
`null`, yields the (last-wins) field of an object, and `undefined` on every
other value (none of the accessed names is a built-in property of strings,
numbers, booleans or arrays). -/
def jsGet (j : Json) (k : List Char) : JsGet :=
  match j with
  | .null => .threw
  | .obj kvs => .val (lookupLast k kvs)
  | _ => .val none

def joinComma : List (List Char) → List Char
  | [] => []
  | [x] => x
  | x :: xs => x ++ ',' :: joinComma xs

/-- JS string coercion of a value (as performed by a template literal or by
`localStorage.setItem`).  A number is shown as its lexeme (no state update
ever displays a non-trivial number).  The fuel only bounds array nesting.  -/
def displayJson : Nat → Json → List Char
  | _, .null => ("null").data
  | _, .bool true => ("true").data
  | _, .bool false => ("false").data
  | _, .num lex => lex
  | _, .str s => s
  | _, .obj _ => ("[object Object]").data
  | 0, .arr _ => []
  | fuel + 1, .arr xs =>
    joinComma (xs.map (fun j => match j with
      | .null => []
      | v => displayJson fuel v))

def displayJsV (fuel : Nat) : JsV → List Char
  | none => ("undefined").data
  | some j => displayJson fuel j

/-! ### Incremental UTF-8 decoding (`TextDecoder` with `stream: true`) -/

def replChar : Char := Char.ofNat 0xFFFD

/-- Total length (in bytes) of the sequence begun by lead byte `b`;
`0` marks an invalid lead byte. -/
def utf8NeedBytes (b : Nat) : Nat :=
  if b < 0x80 then 1
  else if 0xC2 ≤ b ∧ b ≤ 0xDF then 2
  else if 0xE0 ≤ b ∧ b ≤ 0xEF then 3
  else if 0xF0 ≤ b ∧ b ≤ 0xF4 then 4
  else 0

/-- Whether `b` is acceptable as the continuation byte at (1-based) index
`idx` of a sequence led by `lead` (with the restricted second-byte ranges
that exclude overlong forms, surrogates and values above U+10FFFF). -/
def utf8ContOk (lead idx b : Nat) : Bool :=
  0x80 ≤ b ∧ b < 0xC0 ∧
    (idx ≠ 1 ∨
      ((lead ≠ 0xE0 ∨ 0xA0 ≤ b) ∧ (lead ≠ 0xED ∨ b < 0xA0) ∧
        (lead ≠ 0xF0 ∨ 0x90 ≤ b) ∧ (lead ≠ 0xF4 ∨ b < 0x90)))

/-- Assemble the scalar value of a complete, validated sequence. -/
def utf8Assemble : List Nat → Char
  | [a] => Char.ofNat a
  | [a, b] => Char.ofNat ((a - 0xC0) * 0x40 + (b - 0x80))
  | [a, b, c] => Char.ofNat ((a - 0xE0) * 0x1000 + (b - 0x80) * 0x40 + (c - 0x80))
  | [a, b, c, d] =>
    Char.ofNat ((a - 0xF0) * 0x40000 + (b - 0x80) * 0x1000 + (c - 0x80) * 0x40 + (d - 0x80))
  | _ => replChar

/-- Decoder step on one byte with no pending partial sequence. -/
def utf8StepEmpty (b : Nat) : List Char × List Nat :=
  if b < 0x80 then ([Char.ofNat b], [])
  else if 2 ≤ utf8NeedBytes b then ([], [b])
  else ([replChar], [])

/-- Decoder step on one byte: `pend` holds the bytes of a not-yet-complete
sequence.  An invalid continuation emits U+FFFD for the abandoned prefix and
reprocesses the byte, as `TextDecoder` does. -/
def utf8Step (pend : List Nat) (b : Nat) : List Char × List Nat :=
  match pend with
  | [] => utf8StepEmpty b
  | lead :: _ =>
    if utf8ContOk lead pend.length b then
      if pend.length + 1 = utf8NeedBytes lead then ([utf8Assemble (pend ++ [b])], [])
      else ([], pend ++ [b])
    else
      let p := utf8StepEmpty b
      (replChar :: p.1, p.2)

/-- Streaming decode of one chunk, byte by byte, threading the pending
partial sequence — the observable behaviour of
`decoder.decode(value, ...)` in streaming mode. -/
def utf8Fold (acc : List Char × List Nat) (bytes : List Nat) : List Char × List Nat :=
  bytes.foldl (fun st b =>
    let p := utf8Step st.2 b
    (st.1 ++ p.1, p.2)) acc

def utf8EncodeChar (c : Char) : List Nat :=
  let n := c.toNat
  if n < 0x80 then [n]
  else if n < 0x800 then [0xC0 + n / 0x40, 0x80 + n % 0x40]
  else if n < 0x10000 then
    [0xE0 + n / 0x1000, 0x80 + (n / 0x40) % 0x40, 0x80 + n % 0x40]
  else
    [0xF0 + n / 0x40000, 0x80 + (n / 0x1000) % 0x40, 0x80 + (n / 0x40) % 0x40, 0x80 + n % 0x40]

def utf8Encode (l : List Char) : List Nat :=
  (l.map utf8EncodeChar).flatten

/-! ### The frame-boundary regex `/\r?\n\r?\n/` -/

/-- Greedy match length of one `\r?\n` half at the head of the input:
`\r?` commits to a present `\r` only when an `\n` follows (backtracking to
the empty alternative otherwise fails, since the head is then `\r ≠ \n`). -/
def nlTerm : List Char → Option Nat
  | [] => none
  | c :: r =>
    if c = '\n' then some 1
    else if c = '\r' then
      match r with
      | [] => none
      | c2 :: _ => if c2 = '\n' then some 2 else none
    else none

/-- Greedy match length of the whole boundary `\r?\n\r?\n` at the head of
the input. -/
def matchLenAt (l : List Char) : Option Nat :=
  match nlTerm l with
  | none => none
  | some a =>
    match nlTerm (l.drop a) with
    | none => none
    | some b => some (a + b)

/-- Leftmost boundary match: the text before the earliest match, and the
text after it (`buffer.match(/\r?\n\r?\n/)` followed by the two `slice`
calls). -/
def splitFirst : List Char → Option (List Char × List Char)
  | [] => none
  | c :: rest =>
    match matchLenAt (c :: rest) with
    | some n => some ([], (c :: rest).drop n)
    | none => (splitFirst rest).map (fun p => (c :: p.1, p.2))

/-- Repeatedly slice complete frames off the front of the buffer (`while
(match ...)`), with fuel; the boundary consumes at least two characters, so
`buf.length` steps always suffice. -/
def extractF : Nat → List Char → List (List Char) × List Char
  | 0, buf => ([], buf)
  | fuel + 1, buf =>
    match splitFirst buf with
    | none => ([], buf)
    | some (pre, post) =>
      let p := extractF fuel post
      (pre :: p.1, p.2)

def extract (buf : List Char) : List (List Char) × List Char :=
  extractF buf.length buf

/-! ### Frame parsing -/

/-- What the regex metacharacter `.` matches in JavaScript (without the
`s` flag): any character that is not a LineTerminator — `\n`, `\r`,
U+2028 LINE SEPARATOR or U+2029 PARAGRAPH SEPARATOR. -/
def jsDot (c : Char) : Bool :=
  !(c == '\n' || c == '\r' || c == '\u2028' || c == '\u2029')

/-- First match of `/event: (.*)\r?\n/`: the engine scans left to right
for an occurrence of `event: `; the greedy `(.*)` run stops at the first
LineTerminator (`.` matches neither `\n` nor `\r`), and the match at this
occurrence succeeds only when that run is followed by `\n` or `\r\n`.  A
run followed by a lone `\r` (or by U+2028/U+2029, or by the end of the
text) fails the `\r?\n` tail — no shorter capture can help, since every
character given back satisfies `jsDot` — and the scan moves on, so the
whole match can relocate to a later `event: ` occurrence. -/
def evLineCapture : List Char → Option (List Char)
  | [] => none
  | c :: rest =>
    if (("event: ").data).isPrefixOf (c :: rest) then
      let after := (c :: rest).drop 7
      let cap := after.takeWhile jsDot
      let term := after.drop cap.length
      if term.take 1 = ['\n'] ∨ term.take 2 = ['\r', '\n'] then some cap
      else evLineCapture rest
    else evLineCapture rest

/-- `parseFrame` as performed inside the stream loop: a sliced-off block
`ev` yields an event exactly when it is non-blank, starts with `event: `,
its regex match succeeds and it contains a `data: ` marker; the event type
is the trimmed capture, the payload is the trimmed text after the first
`data: `. -/
def parseFrame (ev : List Char) : Option (List Char × List Char) :=
  if jsTrim ev = [] ∨ ¬ (("event: ").data).isPrefixOf ev then none
  else
    match evLineCapture ev, indexOfSub (("data: ").data) ev with
    | some cap, some di => some (jsTrim cap, jsTrim (ev.drop (di + 6)))
    | _, _ => none

/-! ### Session state and the event fold (part_005) -/

/-- The stream-relevant `useState` slots of the part_005 page component,
plus the `dnd_active_thread_id` slot of `localStorage` (`store`; `none`
means the key is absent). -/
structure Session where
  status : JsV
  campaignPlan : JsV
  partyDetails : JsV
  narrative : JsV
  threadId : JsV
  hitlData : JsV
  store : Option (List Char)

def waitingMsg : List Char := ("Waiting for your approval...").data
def connectingMsg : List Char := ("Connecting to AI...").data
def resumingMsg : List Char := ("Resuming generation...").data
def completeMsg : List Char := ("Generation Complete!").data
def connFailedMsg : List Char := ("Error: Connection Failed").data
def loadingMsg : List Char := ("Loading historical data...").data
def loadErrMsg : List Char := ("Error loading history.").data
def errorPrefix : List Char := ("Error: ").data
def storeKey : List Char := ("dnd_active_thread_id").data

/-- Effect of one decoded `(eventType, payload)` pair on the session state
and the loop's `done` flag — the `if/else` chain inside the `try` of
part_005's `processStream`.  A thrown `JSON.parse` error or `TypeError`
(member access on `null`) is caught by the surrounding `catch (parseError)`
before any state update of that branch happens. -/
def applyEvent (s : Session) (d : Bool) (t p : List Char) : Session × Bool :=
  if t = ("thread_id").data then
    match parseJson p with
    | none => (s, d)
    | some j =>
      match jsGet j (("thread_id").data) with
      | .threw => (s, d)
      | .val v =>
        ({ s with threadId := v, store := some (displayJsV (p.length + 1) v) }, d)
  else if t = ("hitl").data then
    match parseJson p with
    | none => (s, d)
    | some j => ({ s with hitlData := some j, status := some (.str waitingMsg) }, true)
  else if t = ("status").data then
    match parseJson p with
    | none => (s, d)
    | some j =>
      match jsGet j (("status").data) with
      | .threw => (s, d)
      | .val v => ({ s with status := v }, d)
  else if t = ("plan").data then
    match parseJson p with
    | none => (s, d)
    | some j => ({ s with campaignPlan := some j }, d)
  else if t = ("party").data then
    match parseJson p with
    | none => (s, d)
    | some j => ({ s with partyDetails := some j }, d)
  else if t = ("narrative").data then
    match parseJson p with
    | none => (s, d)
    | some j => ({ s with narrative := some j }, d)
  else if t = ("error").data then
    match parseJson p with
    | none => (s, d)
    | some j =>
      match jsGet j (("error").data) with
      | .threw => (s, d)
      | .val v =>
        ({ s with status := some (.str (errorPrefix ++ displayJsV (p.length + 1) v)) }, true)
  else if t = ("done").data then
    ({ s with status := some (.str completeMsg) }, true)
  else (s, d)

/-- Session state, `done` flag and the trace of frames decoded so far. -/
structure Fold where
  sess : Session
  done : Bool
  events : List (List Char × List Char)

/-- Process one sliced-off block: blocks that produce no frame are skipped
(`continue`), frames are recorded and folded. -/
def applyBlock (f : Fold) (b : List Char) : Fold :=
  match parseFrame b with
  | none => f
  | some (t, p) =>
    let r := applyEvent f.sess f.done t p
    { sess := r.1, done := r.2, events := f.events ++ [(t, p)] }

def foldBlocks (f : Fold) (bs : List (List Char)) : Fold :=
  bs.foldl applyBlock f

/-- Decoder-side state of one open stream: the `TextDecoder` carry-over,
the text buffer, the loop's `done` flag and the decoded-frame trace. -/
structure StreamSt where
  pending : List Nat
  buffer : List Char
  done : Bool
  events : List (List Char × List Char)

def newStream : StreamSt := ⟨[], [], false, []⟩

/-- Processing of one delivered chunk: decode the bytes, append to the
buffer, slice off every complete frame and fold each in order.  The inner
loop drains the buffer even after `done` was set mid-way; `done` only stops
subsequent reads. -/
def feed (s : Session) (st : StreamSt) (bytes : List Nat) : Session × StreamSt :=
  let dec := utf8Fold ([], st.pending) bytes
  let buf := st.buffer ++ dec.1
  let ex := extract buf
  let f := foldBlocks ⟨s, st.done, st.events⟩ ex.1
  (f.sess, ⟨dec.2, ex.2, f.done, f.events⟩)

/-- One turn of the outer `while (!done)` read loop. -/
def stepChunk (p : Session × StreamSt) (bytes : List Nat) : Session × StreamSt :=
  if p.2.done then p else feed p.1 p.2 bytes

/-- Run the read loop over the chunks the transport will deliver (reads
after the `done` flag is set never happen, so their chunks are never
consumed; an unterminated tail left in the buffer at end of stream is
dropped without effect). -/
def runChunks (p : Session × StreamSt) (chunks : List (List Nat)) : Session × StreamSt :=
  chunks.foldl stepChunk p

/-- The initial mount state of the component: every slot `useState(null)`
(the status slot `useState("")`), no persisted thread id. -/
def initSession : Session :=
  { status := some (.str []), campaignPlan := some .null, partyDetails := some .null,
    narrative := some .null, threadId := some .null, hitlData := some .null, store := none }

/-- `processStream` of part_005 on a fresh reader, as a function of the
chunk sequence the transport delivers. -/
def processStream (s : Session) (chunks : List (List Nat)) : Session × StreamSt :=
  runChunks (s, newStream) chunks

/-- The `catch` of `processStream`: a transport-level read failure (only
possible while the loop is still reading) sets the generic failure status
and ends consumption. -/
def transportFail (p : Session × StreamSt) : Session × StreamSt :=
  if p.2.done then p
  else ({ p.1 with status := some (.str connFailedMsg) }, { p.2 with done := true })

/-- `processStream` on a transport that delivers `k` chunks and then fails
mid-read. -/
def processStreamFailAt (s : Session) (chunks : List (List Nat)) (k : Nat) :
    Session × StreamSt :=
  transportFail (runChunks (s, newStream) (chunks.take k))

/-! ### Controller operations (part_005) -/

/-- The state resets performed by `handleSubmit` before the new stream is
read (the persisted store key is not touched there). -/
def handleSubmit (s : Session) : Session :=
  { s with
    status := some (.str connectingMsg), campaignPlan := some .null,
    partyDetails := some .null, narrative := some .null, threadId := some .null,
    hitlData := some .null }

/-- The state resets performed by `handleResume` before the new stream is
read. -/
def handleResume (s : Session) : Session :=
  { s with hitlData := some .null, status := some (.str resumingMsg) }

/-! ### Thread loading (`handleSelectThread`) -/

/-- Result of `fetch` + `res.json()` for a thread load: either a rejected
promise (network error or malformed body) or the parsed JSON document. -/
inductive Fetch : Type
  | fail : Fetch
  | ok (data : Json) : Fetch

def archTitle : List Char := ("Archived Campaign").data
def archDesc : List Char := ("Recovered from the ancient Chainlit vaults.").data
def legacySep : List Char := ("\n\n---\n\n").data

/-- Accumulator of the legacy-deserialization loop. -/
structure LoadAcc where
  plan : JsV
  party : JsV
  narr : JsV
  legacy : List Char

/-- JS `a || b` on values. -/
def jsOr (a b : JsV) : JsV := if jsTruthy a then a else b

/-- One iteration of `for (const msg of data.messages)`; `none` models an
uncaught `TypeError` (access on a `null` element), which aborts the loop
into the outer `catch`.  A throw inside the inner `try` (only `JSON.parse`
can throw there) leaves the accumulator unchanged. -/
def loadMsg (acc : LoadAcc) (m : Json) : Option LoadAcc :=
  match jsGet m (("output").data) with
  | .threw => none
  | .val out =>
    if ¬ jsTruthy out then some acc
    else
      match out with
      | some (.str s) =>
        if (jsTrim s).take 1 = ['\x7b'] then
          match parseJson s with
          | none => some acc
          | some parsed =>
            match jsGet parsed (("campaign_plan").data), jsGet parsed (("core_conflict").data),
                jsGet parsed (("party_details").data), jsGet parsed (("characters").data),
                jsGet parsed (("title").data), jsGet parsed (("description").data),
                jsGet parsed (("background").data) with
            | .val cp, .val cc, .val pd, .val ch, .val ti, .val de, .val bg =>
              if jsTruthy cp ∨ jsTruthy cc then
                some { acc with plan := jsOr cp (some parsed) }
              else if jsTruthy pd ∨ jsTruthy ch then
                some { acc with party := jsOr pd (some parsed) }
              else if jsTruthy ti ∧ jsTruthy de ∧ jsTruthy bg then
                some { acc with narr := some parsed }
              else some acc
            | _, _, _, _, _, _, _ => some acc
        else
          match jsGet m (("type").data) with
          | .threw => none
          | .val ty =>
            if (jsvAsStr ty = some (("run").data) ∨ jsvAsStr ty = some (("assistant_message").data) ∨
                jsvAsStr ty = some (("llm").data) ∨ jsvAsStr ty = some (("message").data) ∨
                jsvAsStr ty = some (("tool").data)) ∧ 20 < s.length then
              some { acc with legacy := acc.legacy ++ s ++ legacySep }
            else some acc
      | _ => some acc

def loadMsgs : LoadAcc → List Json → Option LoadAcc
  | acc, [] => some acc
  | acc, m :: rest =>
    match loadMsg acc m with
    | none => none
    | some acc2 => loadMsgs acc2 rest

/-- `handleSelectThread("")`: clear everything and drop the persisted id. -/
def selectThreadClear (s : Session) : Session :=
  { s with
    threadId := some .null, campaignPlan := some .null, partyDetails := some .null,
    narrative := some .null, hitlData := some .null, status := some (.str []),
    store := none }

/-- `handleSelectThread(id)` for non-empty `id`, as a function of the fetch
outcome.  Iterating `for..of` over a non-iterable `messages` value throws
into the outer `catch`; a string iterates its characters, all of which are
skipped by the `!msg.output` guard. -/
def handleSelectThread (s : Session) (id : List Char) (fetch : Fetch) : Session :=
  if id = [] then selectThreadClear s
  else
    let s1 := { s with
      threadId := some (.str id), store := some id, status := some (.str loadingMsg) }
    match fetch with
    | .fail => { s1 with status := some (.str loadErrMsg) }
    | .ok data =>
      if ¬ jsTruthy (some data) then s1
      else
        match jsGet data (("messages").data) with
        | .threw => { s1 with status := some (.str loadErrMsg) }
        | .val msgsV =>
          if ¬ jsTruthy msgsV then s1
          else
            let acc0 : LoadAcc := ⟨some .null, some .null, some .null, []⟩
            let run : Option LoadAcc :=
              match msgsV with
              | some (.arr msgs) => loadMsgs acc0 msgs
              | some (.str _) => some acc0
              | _ => none
            match run with
            | none => { s1 with status := some (.str loadErrMsg) }
            | some acc =>
              let narr2 : JsV :=
                if ¬ jsTruthy acc.narr ∧ acc.legacy ≠ [] then
                  some (.obj [((("title").data), .str archTitle),
                    ((("description").data), .str archDesc),
                    ((("background").data), .str acc.legacy),
                    ((("rewards").data), .str [])])
                else acc.narr
              { s1 with
                campaignPlan := acc.plan, partyDetails := acc.party, narrative := narr2,
                status := some (.str
                  (if jsTruthy narr2 ∨ jsTruthy acc.plan ∨ acc.legacy ≠ [] then completeMsg
                   else waitingMsg)) }

/-! ### The part_006 page component -/

/-- The optimistic sidebar entry part_006 adds to its state. -/
structure PendingThread where
  name : List Char
  createdAt : List Char

/-- The stream-relevant state slots of the part_006 page component: the
part_005 slots plus `pendingSidebarThread`. -/
structure Session6 where
  status : JsV
  campaignPlan : JsV
  partyDetails : JsV
  narrative : JsV
  threadId : JsV
  hitlData : JsV
  store : Option (List Char)
  pendingSidebarThread : Option PendingThread

/-- The `if/else` chain of part_006's `processStream`: identical to
part_005 except that the `thread_id` and `error` branches additionally
clear `pendingSidebarThread`. -/
def applyEvent6 (s : Session6) (d : Bool) (t p : List Char) : Session6 × Bool :=
  if t = ("thread_id").data then
    match parseJson p with
    | none => (s, d)
    | some j =>
      match jsGet j (("thread_id").data) with
      | .threw => (s, d)
      | .val v =>
        ({ s with
          threadId := v, pendingSidebarThread := none,
          store := some (displayJsV (p.length + 1) v) }, d)
  else if t = ("hitl").data then
    match parseJson p with
    | none => (s, d)
    | some j => ({ s with hitlData := some j, status := some (.str waitingMsg) }, true)
  else if t = ("status").data then
    match parseJson p with
    | none => (s, d)
    | some j =>
      match jsGet j (("status").data) with
      | .threw => (s, d)
      | .val v => ({ s with status := v }, d)
  else if t = ("plan").data then
    match parseJson p with
    | none => (s, d)
    | some j => ({ s with campaignPlan := some j }, d)
  else if t = ("party").data then
    match parseJson p with
    | none => (s, d)
    | some j => ({ s with partyDetails := some j }, d)
  else if t = ("narrative").data then
    match parseJson p with
    | none => (s, d)
    | some j => ({ s with narrative := some j }, d)
  else if t = ("error").data then
    match parseJson p with
    | none => (s, d)
    | some j =>
      match jsGet j (("error").data) with
      | .threw => (s, d)
      | .val v =>
        ({ s with
          status := some (.str (errorPrefix ++ displayJsV (p.length + 1) v)),
          pendingSidebarThread := none }, true)
  else if t = ("done").data then
    ({ s with status := some (.str completeMsg) }, true)
  else (s, d)

structure Fold6 where
  sess : Session6
  done : Bool
  events : List (List Char × List Char)

def applyBlock6 (f : Fold6) (b : List Char) : Fold6 :=
  match parseFrame b with
  | none => f
  | some (t, p) =>
    let r := applyEvent6 f.sess f.done t p
    { sess := r.1, done := r.2, events := f.events ++ [(t, p)] }

def foldBlocks6 (f : Fold6) (bs : List (List Char)) : Fold6 :=
  bs.foldl applyBlock6 f

/-- Chunk processing of part_006's `processStream`: the framing, decoding
and buffering code is character-for-character the same as part_005's. -/
def feed6 (s : Session6) (st : StreamSt) (bytes : List Nat) : Session6 × StreamSt :=
  let dec := utf8Fold ([], st.pending) bytes
  let buf := st.buffer ++ dec.1
  let ex := extract buf
  let f := foldBlocks6 ⟨s, st.done, st.events⟩ ex.1
  (f.sess, ⟨dec.2, ex.2, f.done, f.events⟩)

def stepChunk6 (p : Session6 × StreamSt) (bytes : List Nat) : Session6 × StreamSt :=
  if p.2.done then p else feed6 p.1 p.2 bytes

def runChunks6 (p : Session6 × StreamSt) (chunks : List (List Nat)) : Session6 × StreamSt :=
  chunks.foldl stepChunk6 p

/-- The initial mount state of the part_006 component, with an arbitrary
`pendingSidebarThread` value. -/
def initSession6 (p0 : Option PendingThread) : Session6 :=
  { status := some (.str []), campaignPlan := some .null, partyDetails := some .null,
    narrative := some .null, threadId := some .null, hitlData := some .null, store := none,
    pendingSidebarThread := p0 }

def processStream6 (s : Session6) (chunks : List (List Nat)) : Session6 × StreamSt :=
  runChunks6 (s, newStream) chunks

/-- Projection of the part_006 state onto the slots part_005 shares. -/
def projSession6 (s : Session6) : Session :=
  ⟨s.status, s.campaignPlan, s.partyDetails, s.narrative, s.threadId, s.hitlData, s.store⟩

/-! ### Interleaving of several open streams (resume supersession) -/

/-- Global client state: the shared React state plus every stream instance
ever opened (each `processStream` invocation keeps its own reader, buffer
and local `done` flag; the React state is shared by all of them). -/
structure SysState where
  sess : Session
  insts : List StreamSt

/-- User and transport turns of the event loop.  Each `processStream` step
between two `await`s is atomic, so an interleaving is a sequence of: a
chunk delivery to one open stream, a form submission, or a click on an
approval button (which the UI only renders while `hitlData` is truthy). -/
inductive Act : Type
  | submit : Act
  | resume : Act
  | deliver (k : Nat) (bytes : List Nat) : Act

def stepAct (sys : SysState) : Act → SysState
  | .submit => { sess := handleSubmit sys.sess, insts := sys.insts ++ [newStream] }
  | .resume =>
    if jsTruthy sys.sess.hitlData then
      { sess := handleResume sys.sess, insts := sys.insts ++ [newStream] }
    else sys
  | .deliver k bytes =>
    match sys.insts.get? k with
    | none => sys
    | some st =>
      if st.done then sys
      else
        let r := feed sys.sess st bytes
        { sess := r.1, insts := sys.insts.set k r.2 }

def initSys : SysState := ⟨initSession, []⟩

def runActs (acts : List Act) : SysState := acts.foldl stepAct initSys

/-! ### Restricted session operations (for the approval/phase invariant) -/

/-- The session-level operations of the restricted reachability model:
fresh submissions, resumes, and single folded stream events. -/
inductive ROp : Type
  | submit : ROp
  | resume : ROp
  | ev (t p : List Char) : ROp

def doROp (s : Session) : ROp → Session
  | .submit => handleSubmit s
  | .resume => handleResume s
  | .ev t p => (applyEvent s false t p).1

/-- Side conditions of the restricted model: stream events are only folded
while the session is not awaiting approval, a `hitl` payload never parses
to JSON `null`, and a `status` payload never carries the literal approval
message. -/
def allowedROp (s : Session) : ROp → Bool
  | .submit => true
  | .resume => true
  | .ev t p =>
    (jsvAsStr s.status ≠ some waitingMsg) &&
    (t ≠ ("hitl").data ||
      (match parseJson p with
        | some .null => false
        | _ => true)) &&
    (t ≠ ("status").data ||
      (match parseJson p with
        | some j =>
          match jsGet j (("status").data) with
          | .val v => jsvAsStr v ≠ some waitingMsg
          | .threw => true
        | none => true))

/-- Session states reachable in the restricted model. -/
inductive ReachR : Session → Prop
  | init : ReachR initSession
  | step (s : Session) (op : ROp) : ReachR s → allowedROp s op = true → ReachR (doROp s op)

/-! ### Spec-side frame parsing (for the `parseFrame` contract) -/

/-- The `parseFrame` contract exactly as the spec sentence words it: the
event type is the (untrimmed) text after `event: ` up to the first line
terminator (or the end of the block), the payload is the text after the
first `data: ` marker, trimmed. -/
def parseFrameClaimed (ev : List Char) : Option (List Char × List Char) :=
  if ¬ (("event: ").data).isPrefixOf ev then none
  else
    match indexOfSub (("data: ").data) ev with
    | none => none
    | some di =>
      some ((ev.drop 7).takeWhile jsDot, jsTrim (ev.drop (di + 6)))

/-- The `parseFrame` contract amended to match the code on blocks free of
carriage returns and Unicode line separators (every block a conforming
stream produces): the event type is additionally trimmed of surrounding
whitespace, and a block containing no newline produces no event.  On
blocks with a `\r` in the event line the code instead fails the regex at
that occurrence and relocates or drops the block, as the counterexample
shows. -/
def parseFrameAmended (ev : List Char) : Option (List Char × List Char) :=
  if ¬ (("event: ").data).isPrefixOf ev then none
  else if '\n' ∉ ev then none
  else
    match indexOfSub (("data: ").data) ev with
    | none => none
    | some di =>
      some (jsTrim ((ev.drop 7).takeWhile jsDot), jsTrim (ev.drop (di + 6)))

/-- All frames of a byte sequence delivered as one single chunk. -/
def fullBlocks (bytes : List Nat) : List (List Char) :=
  (extract (utf8Fold ([], []) bytes).1).1

/-- The per-stream invariant tying the frame trace to the `done` flag: a
`hitl` frame with parseable payload in the trace means the read loop has
terminated. -/
def HitlInv (d : Bool) (evs : List (List Char × List Char)) : Prop :=
  ∀ p, ((("hitl").data, p)) ∈ evs → parseJson p ≠ none → d = true

def projFold6 (f : Fold6) : Fold := ⟨projSession6 f.sess, f.done, f.events⟩

/-- The claimed invariant: pending-approval data is present exactly in the
awaiting-approval phase (the phase is rendered by the literal status
message). -/
def invC4 (s : Session) : Prop :=
  (jsvIsNullish s.hitlData = false) ↔ (jsvAsStr s.status = some waitingMsg)

/-- Every open stream instance satisfies the `hitl`-termination invariant. -/
def SysHitlInv (sys : SysState) : Prop :=
  ∀ k st, sys.insts.get? k = some st → HitlInv st.done st.events


/-- Lookup of a string member of the pending-approval object. -/
def hitlField (s : Session) (k : List Char) : Option (List Char) :=
  match s.hitlData with
  | some (.obj kvs) =>
    match lookupLast k kvs with
    | some (.str v) => some v
    | _ => none
  | _ => none

/-- The literal frame sequence of the end-to-end example. -/
def exampleFrameSeq : List Char :=
  (("event: thread_id\ndata: \x7b\"thread_id\":\"abc123\"\x7d\n\n").data) ++
  (("event: status\ndata: \x7b\"status\":\"Planning...\"\x7d\n\n").data) ++
  (("event: hitl\ndata: \x7b\"action_1_label\":\"Approve\",\"action_1_payload\":\"approve\"\x7d\n\n").data)

def exampleBytes : List Nat := utf8Encode exampleFrameSeq

/-- A `hitl` frame and a `status` frame used in concrete runs. -/
def hitlFrameX : List Char := ("event: hitl\ndata: \x7b\"a\":1\x7d\n\n").data

def statusFrameX : List Char := ("event: status\ndata: \x7b\"status\":\"Planning...\"\x7d\n\n").data

def hitlBytes : List Nat := utf8Encode hitlFrameX

def statusBytes : List Nat := utf8Encode statusFrameX

def narrBytes : List Nat := utf8Encode (("event: narrative\ndata: \x7b\"t\":\"n\"\x7d\n\n").data)

/-- A `done`-typed frame whose payload is not valid JSON. -/
def doneBadFrame : List Char := ("event: done\ndata: nope\n\n").data

/-- Two `thread_id` frames carrying different identifiers. -/
def tidA : List Char := ("event: thread_id\ndata: \x7b\"thread_id\":\"alpha\"\x7d\n\n").data

def tidB : List Char := ("event: thread_id\ndata: \x7b\"thread_id\":\"beta\"\x7d\n\n").data

/-- A status frame whose payload contains a two-byte UTF-8 character, so a
byte split can fall inside it. -/
def umlautFrame : List Char := ("event: status\ndata: \x7b\"status\":\"Räuber\"\x7d\n\n").data

def umlautBytes : List Nat := utf8Encode umlautFrame

/-- A schedule opening four streams: stream 0 pauses at a `hitl`, a resume
opens stream 1, a submit opens stream 2 which decodes one event, stream 1
pauses at a `hitl`, and a second resume opens stream 3 while stream 2 is
still active. -/
def scheduleC9 : List Act :=
  [.submit, .deliver 0 hitlBytes, .resume, .submit, .deliver 2 statusBytes,
   .deliver 1 hitlBytes, .resume]

/-! ### Lemmas: the leftmost boundary match is stable under appending -/

theorem nlTerm_shape {l : List Char} {a : Nat} (h : nlTerm l = some a) :
    (a = 1 ∧ ∃ r, l = '\n' :: r) ∨ (a = 2 ∧ ∃ r, l = '\r' :: '\n' :: r) := by
  match l with
  | [] => simp [nlTerm] at h
  | c :: r =>
    by_cases h1 : c = '\n'
    · left
      simp [nlTerm, h1] at h
      exact ⟨h.symm, r, by rw [h1]⟩
    · by_cases h2 : c = '\r'
      · match r with
        | [] => simp [nlTerm, h1, h2] at h
        | c2 :: r2 =>
          by_cases h3 : c2 = '\n'
          · right
            simp [nlTerm, h1, h2, h3] at h
            exact ⟨h.symm, r2, by rw [h2, h3]⟩
          · simp [nlTerm, h1, h2, h3] at h
      · simp [nlTerm, h1, h2] at h

theorem nlTerm_le_length {l : List Char} {a : Nat} (h : nlTerm l = some a) : a ≤ l.length := by
  rcases nlTerm_shape h with ⟨ha, r, hl⟩ | ⟨ha, r, hl⟩ <;> subst ha <;> simp [hl]

theorem nlTerm_append {l m : List Char} {a : Nat} (h : nlTerm l = some a) :
    nlTerm (l ++ m) = some a := by
  rcases nlTerm_shape h with ⟨ha, r, hl⟩ | ⟨ha, r, hl⟩ <;> subst hl <;> simp [nlTerm, ← ha]

theorem nlTerm_none_append {l m : List Char} {a : Nat}
    (h : nlTerm l = none) (h2 : nlTerm (l ++ m) = some a) :
    l = [] ∨ l = ['\r'] := by
  match l with
  | [] => exact Or.inl rfl
  | c :: r =>
    by_cases h1 : c = '\n'
    · simp [nlTerm, h1] at h
    · by_cases hr : c = '\r'
      · match r with
        | [] => exact Or.inr (by rw [hr])
        | c2 :: r2 =>
          by_cases h3 : c2 = '\n'
          · simp [nlTerm, h1, hr, h3] at h
          · simp [nlTerm, h1, hr, h3] at h2
      · simp [nlTerm, h1, hr] at h2

theorem matchLenAt_bounds {l : List Char} {n : Nat} (h : matchLenAt l = some n) :
    2 ≤ n ∧ n ≤ l.length := by
  cases h1 : nlTerm l with
  | none => simp only [matchLenAt, h1] at h; exact Option.noConfusion h
  | some a =>
    cases h2 : nlTerm (l.drop a) with
    | none => simp only [matchLenAt, h1, h2] at h; exact Option.noConfusion h
    | some b =>
      simp only [matchLenAt, h1, h2, Option.some.injEq] at h
      have hb := nlTerm_le_length h2
      have ha := nlTerm_le_length h1
      have ha1 : 1 ≤ a := by
        rcases nlTerm_shape h1 with ⟨x, _⟩ | ⟨x, _⟩ <;> omega
      have hb1 : 1 ≤ b := by
        rcases nlTerm_shape h2 with ⟨x, _⟩ | ⟨x, _⟩ <;> omega
      simp only [List.length_drop] at hb
      omega

theorem matchLenAt_append {l m : List Char} {n : Nat} (h : matchLenAt l = some n) :
    matchLenAt (l ++ m) = some n := by
  cases h1 : nlTerm l with
  | none => simp only [matchLenAt, h1] at h; exact Option.noConfusion h
  | some a =>
    cases h2 : nlTerm (l.drop a) with
    | none => simp only [matchLenAt, h1, h2] at h; exact Option.noConfusion h
    | some b =>
      simp only [matchLenAt, h1, h2] at h
      simp only [matchLenAt, nlTerm_append h1,
        List.drop_append_of_le_length (nlTerm_le_length h1), nlTerm_append h2]
      exact h

theorem matchLenAt_flip {l m : List Char} {k : Nat}
    (h1 : matchLenAt l = none) (h2 : matchLenAt (l ++ m) = some k) :
    l.length ≤ 1 ∨ l = ['\n', '\r'] ∨ l = ['\r', '\n'] ∨ l = ['\r', '\n', '\r'] := by
  cases ha : nlTerm l with
  | none =>
    cases hb : nlTerm (l ++ m) with
    | none => simp only [matchLenAt, hb] at h2; exact Option.noConfusion h2
    | some a =>
      rcases nlTerm_none_append ha hb with h | h <;> subst h <;> simp
  | some a =>
    cases hc : nlTerm (l.drop a) with
    | none =>
      simp only [matchLenAt, nlTerm_append ha,
        List.drop_append_of_le_length (nlTerm_le_length ha)] at h2
      cases hd : nlTerm (l.drop a ++ m) with
      | none => simp only [hd] at h2; exact Option.noConfusion h2
      | some b =>
        rcases nlTerm_none_append hc hd with h | h <;>
          rcases nlTerm_shape ha with ⟨ha2, r, hl⟩ | ⟨ha2, r, hl⟩ <;>
            subst ha2 <;> subst hl <;> simp_all
    | some b => simp only [matchLenAt, ha, hc] at h1; exact Option.noConfusion h1

theorem splitFirst_some_length {l pre post : List Char}
    (h : splitFirst l = some (pre, post)) :
    pre.length + post.length + 2 ≤ l.length := by
  induction l generalizing pre with
  | nil => exact Option.noConfusion h
  | cons c rest ih =>
    cases hm : matchLenAt (c :: rest) with
    | some n =>
      simp only [splitFirst, hm, Option.some.injEq, Prod.mk.injEq] at h
      obtain ⟨h1, h2⟩ := h
      have hb := matchLenAt_bounds hm
      subst h1; subst h2
      simp only [List.length_nil, List.length_drop]
      simp only [List.length_cons] at hb ⊢
      omega
    | none =>
      simp only [splitFirst, hm, Option.map_eq_some'] at h
      obtain ⟨⟨pre2, post2⟩, hs, heq⟩ := h
      simp only [Prod.mk.injEq] at heq
      obtain ⟨h1, h2⟩ := heq
      subst h1; subst h2
      have := ih hs
      simp only [List.length_cons]
      omega

theorem splitFirst_append {l m pre post : List Char}
    (h : splitFirst l = some (pre, post)) :
    splitFirst (l ++ m) = some (pre, post ++ m) := by
  induction l generalizing pre with
  | nil => exact Option.noConfusion h
  | cons c rest ih =>
    cases hm : matchLenAt (c :: rest) with
    | some n =>
      simp only [splitFirst, hm, Option.some.injEq, Prod.mk.injEq] at h
      obtain ⟨h1, h2⟩ := h
      subst h1; subst h2
      have hb := matchLenAt_bounds hm
      have key : matchLenAt (c :: (rest ++ m)) = some n := by
        have h2 := matchLenAt_append (m := m) hm
        rwa [List.cons_append] at h2
      have hd : (c :: (rest ++ m)).drop n = ((c :: rest).drop n) ++ m := by
        rw [← List.cons_append, List.drop_append_of_le_length hb.2]
      rw [List.cons_append]
      simp only [splitFirst, key, hd]
    | none =>
      simp only [splitFirst, hm, Option.map_eq_some'] at h
      obtain ⟨⟨pre2, post2⟩, hs, heq⟩ := h
      simp only [Prod.mk.injEq] at heq
      obtain ⟨h1, h2⟩ := heq
      subst h1; subst h2
      have hlen := splitFirst_some_length hs
      have hnone : matchLenAt (c :: (rest ++ m)) = none := by
        cases hx : matchLenAt (c :: (rest ++ m)) with
        | none => rfl
        | some k =>
          rw [← List.cons_append] at hx
          rcases matchLenAt_flip hm hx with hshape | hshape | hshape | hshape
          · simp only [List.length_cons] at hshape; omega
          · have hr : rest = ['\r'] := by
              have := congrArg List.tail hshape; simpa using this
            rw [hr] at hs
            exact Option.noConfusion ((by decide : splitFirst ['\r'] = none) ▸ hs)
          · have hr : rest = ['\n'] := by
              have := congrArg List.tail hshape; simpa using this
            rw [hr] at hs
            exact Option.noConfusion ((by decide : splitFirst ['\n'] = none) ▸ hs)
          · have hr : rest = ['\n', '\r'] := by
              have := congrArg List.tail hshape; simpa using this
            rw [hr] at hs
            exact Option.noConfusion
              ((by decide : splitFirst ['\n', '\r'] = none) ▸ hs)
      rw [List.cons_append]
      simp only [splitFirst, hnone, ih hs, Option.map_some']

/-! ### Lemmas: frame extraction streams across chunk boundaries -/

theorem extractF_of_none {t : List Char} (h : splitFirst t = none) (f : Nat) :
    extractF f t = ([], t) := by
  cases f with
  | zero => rfl
  | succ g => simp only [extractF, h]

theorem extract_of_none {t : List Char} (h : splitFirst t = none) :
    extract t = ([], t) :=
  extractF_of_none h _

theorem extractF_congr :
    ∀ (f g : Nat) (buf : List Char), buf.length ≤ f → buf.length ≤ g →
      extractF f buf = extractF g buf := by
  intro f
  induction f with
  | zero =>
    intro g buf hf _
    have hb : buf = [] := List.length_eq_zero.mp (Nat.le_zero.mp hf)
    subst hb
    rw [extractF_of_none (show splitFirst [] = none from rfl) 0,
      extractF_of_none (show splitFirst [] = none from rfl) g]
  | succ f ih =>
    intro g buf hf hg
    cases hs : splitFirst buf with
    | none => rw [extractF_of_none hs, extractF_of_none hs]
    | some pp =>
      obtain ⟨pre, post⟩ := pp
      have hlen := splitFirst_some_length hs
      cases g with
      | zero => omega
      | succ g =>
        simp only [extractF, hs]
        rw [ih g post (by omega) (by omega)]

theorem extract_of_some {t pre post : List Char} (h : splitFirst t = some (pre, post)) :
    extract t = (pre :: (extract post).1, (extract post).2) := by
  have hlen := splitFirst_some_length h
  unfold extract
  have h2 : t.length = (t.length - 1) + 1 := by omega
  rw [h2]
  simp only [extractF, h]
  rw [extractF_congr (t.length - 1) post.length post (by omega) le_rfl]

theorem extract_append (t m : List Char) :
    extract (t ++ m) =
      ((extract t).1 ++ (extract ((extract t).2 ++ m)).1,
        (extract ((extract t).2 ++ m)).2) := by
  suffices h : ∀ (n : Nat) (t : List Char), t.length = n →
      extract (t ++ m) =
        ((extract t).1 ++ (extract ((extract t).2 ++ m)).1,
          (extract ((extract t).2 ++ m)).2) from h t.length t rfl
  intro n
  induction n using Nat.strong_induction_on with
  | _ n ih =>
    intro t hn
    cases hs : splitFirst t with
    | none =>
      rw [extract_of_none hs]
      simp
    | some pp =>
      obtain ⟨pre, post⟩ := pp
      have hlen := splitFirst_some_length hs
      rw [extract_of_some hs, extract_of_some (splitFirst_append hs)]
      have ihp := ih post.length (by omega) post rfl
      rw [ihp]
      simp

/-! ### Lemmas: the byte decoder and the block fold compose -/

theorem utf8Fold_append (acc : List Char × List Nat) (xs ys : List Nat) :
    utf8Fold acc (xs ++ ys) = utf8Fold (utf8Fold acc xs) ys :=
  List.foldl_append _ _ _ _

theorem utf8Fold_acc (cs : List Char) (p : List Nat) (bytes : List Nat) :
    utf8Fold (cs, p) bytes =
      (cs ++ (utf8Fold ([], p) bytes).1, (utf8Fold ([], p) bytes).2) := by
  induction bytes generalizing cs p with
  | nil => simp [utf8Fold]
  | cons b rest ih =>
    simp only [utf8Fold, List.foldl_cons, List.nil_append] at ih ⊢
    rw [ih (cs ++ (utf8Step p b).1) ((utf8Step p b).2), ih ((utf8Step p b).1) ((utf8Step p b).2)]
    simp [List.append_assoc]

theorem foldBlocks_append (f : Fold) (a b : List (List Char)) :
    foldBlocks f (a ++ b) = foldBlocks (foldBlocks f a) b :=
  List.foldl_append _ _ _ _

theorem foldBlocks_cons (f : Fold) (b : List Char) (bs : List (List Char)) :
    foldBlocks f (b :: bs) = foldBlocks (applyBlock f b) bs := rfl

theorem runChunks_cons (p : Session × StreamSt) (c : List Nat) (cs : List (List Nat)) :
    runChunks p (c :: cs) = runChunks (stepChunk p c) cs := rfl

theorem applyEvent_snd_true (s : Session) (t p : List Char) :
    (applyEvent s true t p).2 = true := by
  unfold applyEvent
  repeat' split
  all_goals rfl

theorem applyBlock_done_mono {f : Fold} (h : f.done = true) (b : List Char) :
    (applyBlock f b).done = true := by
  unfold applyBlock
  cases parseFrame b with
  | none => exact h
  | some tp => rw [h]; exact applyEvent_snd_true _ _ _

theorem foldBlocks_done_mono {f : Fold} (h : f.done = true) (bs : List (List Char)) :
    (foldBlocks f bs).done = true := by
  induction bs generalizing f with
  | nil => exact h
  | cons b rest ih =>
    simp only [foldBlocks, List.foldl_cons]
    exact ih (applyBlock_done_mono h b)

/-- The events trace is threaded through the fold but never read by it: a
fold from traces `e` equals the fold from the empty trace with `e`
prepended. -/
theorem foldBlocks_events (s : Session) (d : Bool)
    (e : List (List Char × List Char)) (bs : List (List Char)) :
    foldBlocks ⟨s, d, e⟩ bs =
      ⟨(foldBlocks ⟨s, d, []⟩ bs).sess, (foldBlocks ⟨s, d, []⟩ bs).done,
        e ++ (foldBlocks ⟨s, d, []⟩ bs).events⟩ := by
  induction bs generalizing s d e with
  | nil => simp [foldBlocks]
  | cons b rest ih =>
    rw [foldBlocks_cons, foldBlocks_cons]
    cases hb : parseFrame b with
    | none =>
      simp only [applyBlock, hb]
      exact ih s d e
    | some tp =>
      obtain ⟨t, p⟩ := tp
      simp only [applyBlock, hb, List.nil_append]
      rw [ih _ _ (e ++ [(t, p)]), ih _ _ [(t, p)]]
      simp

theorem feed_nil (s : Session) : feed s newStream [] = (s, newStream) := rfl

/-- Chunk processing composes: feeding `p` and then `q` is feeding
`p ++ q`.  This is where the UTF-8 carry-over, the buffer residue and the
fold compose. -/
theorem feed_append (s : Session) (st : StreamSt) (p q : List Nat) :
    feed (feed s st p).1 (feed s st p).2 q = feed s st (p ++ q) := by
  simp only [feed]
  rw [utf8Fold_append,
    utf8Fold_acc ((utf8Fold ([], st.pending) p).1) ((utf8Fold ([], st.pending) p).2) q,
    show st.buffer ++ ((utf8Fold ([], st.pending) p).1 ++
        (utf8Fold ([], (utf8Fold ([], st.pending) p).2) q).1) =
      (st.buffer ++ (utf8Fold ([], st.pending) p).1) ++
        (utf8Fold ([], (utf8Fold ([], st.pending) p).2) q).1 from
      (List.append_assoc _ _ _).symm,
    extract_append (st.buffer ++ (utf8Fold ([], st.pending) p).1)
      ((utf8Fold ([], (utf8Fold ([], st.pending) p).2) q).1),
    foldBlocks_append]

theorem runChunks_done {p : Session × StreamSt} (h : p.2.done = true)
    (cs : List (List Nat)) : runChunks p cs = p := by
  induction cs with
  | nil => rfl
  | cons c rest ih =>
    simp only [runChunks, List.foldl_cons, stepChunk, h, if_true]
    exact ih

/-- The guarded read loop always lands on the single-feed state of some
prefix of the chunks: either all of them, or a prefix after which the
`done` flag had been set. -/
theorem runChunks_from_feed (s0 : Session) :
    ∀ (parts : List (List Nat)) (pre : List Nat),
      ∃ k ≤ parts.length,
        runChunks (feed s0 newStream pre) parts =
          feed s0 newStream (pre ++ (parts.take k).flatten) ∧
        (k = parts.length ∨
          (feed s0 newStream (pre ++ (parts.take k).flatten)).2.done = true) := by
  intro parts
  induction parts with
  | nil =>
    intro pre
    exact ⟨0, Nat.le_refl 0, by simp [runChunks], Or.inl rfl⟩
  | cons c cs ih =>
    intro pre
    by_cases hd : (feed s0 newStream pre).2.done = true
    · refine ⟨0, Nat.zero_le _, ?_, Or.inr (by simpa using hd)⟩
      simp only [List.take_zero, List.flatten_nil, List.append_nil]
      have hstep : stepChunk (feed s0 newStream pre) c = feed s0 newStream pre := by
        unfold stepChunk
        rw [if_pos hd]
      rw [runChunks_cons, hstep]
      exact runChunks_done hd cs
    · obtain ⟨k, hk, heq, hor⟩ := ih (pre ++ c)
      have hstep : stepChunk (feed s0 newStream pre) c = feed s0 newStream (pre ++ c) := by
        unfold stepChunk
        rw [if_neg hd]
        exact feed_append s0 newStream pre c
      have hflat : pre ++ ((c :: cs).take (k + 1)).flatten =
          (pre ++ c) ++ (cs.take k).flatten := by
        simp [List.take_succ_cons, List.append_assoc]
      refine ⟨k + 1, Nat.succ_le_succ hk, ?_, ?_⟩
      · rw [runChunks_cons, hstep, heq, hflat]
      · rcases hor with h | h
        · exact Or.inl (by simpa using congrArg Nat.succ h)
        · rw [hflat]
          exact Or.inr h

theorem fullBlocks_split (pfx sfx : List Nat) :
    fullBlocks (pfx ++ sfx) =
      fullBlocks pfx ++
        (extract ((extract (utf8Fold ([], []) pfx).1).2 ++
          (utf8Fold ([], (utf8Fold ([], []) pfx).2) sfx).1)).1 := by
  unfold fullBlocks
  rw [utf8Fold_append,
    utf8Fold_acc ((utf8Fold ([], ([] : List Nat)) pfx).1) ((utf8Fold ([], ([] : List Nat)) pfx).2) sfx,
    extract_append]

theorem dropLast_append_cons {α : Type} (l1 : List α) (b : α) (l2 : List α) :
    (l1 ++ b :: l2).dropLast = l1 ++ (b :: l2).dropLast := by
  induction l1 with
  | nil => rfl
  | cons x xs ih =>
    cases hx : xs ++ b :: l2 with
    | nil => exact absurd hx (by simp)
    | cons y ys =>
      simp only [List.cons_append, hx, List.dropLast_cons₂]
      rw [← hx, ih]

/-- Once the single-feed run of a byte prefix has its `done` flag set, a
suffix whose frames would all come after the last frame of the whole
sequence contributes nothing: the visible state after the prefix is final. -/
theorem feed_done_stable {s0 : Session} {pfx sfx : List Nat}
    (hdone : (feed s0 newStream pfx).2.done = true)
    (hH : (foldBlocks ⟨s0, false, []⟩ (fullBlocks (pfx ++ sfx)).dropLast).done = false) :
    (feed s0 newStream (pfx ++ sfx)).1 = (feed s0 newStream pfx).1 ∧
    (feed s0 newStream (pfx ++ sfx)).2.events = (feed s0 newStream pfx).2.events ∧
    (feed s0 newStream (pfx ++ sfx)).2.done = (feed s0 newStream pfx).2.done := by
  rw [← feed_append]
  cases hB2 : (extract ((feed s0 newStream pfx).2.buffer ++
      (utf8Fold ([], (feed s0 newStream pfx).2.pending) sfx).1)).1 with
  | nil =>
    simp only [feed] at hB2
    refine ⟨?_, ?_, ?_⟩ <;>
      · show _ = _
        simp only [feed]
        rw [hB2]
        try rfl
  | cons b rest =>
    exfalso
    have hsplit : fullBlocks (pfx ++ sfx) = fullBlocks pfx ++ (b :: rest) := by
      rw [fullBlocks_split]
      congr 1
    have hd1 : (foldBlocks ⟨s0, false, []⟩ (fullBlocks pfx)).done = true := hdone
    rw [hsplit, dropLast_append_cons, foldBlocks_append,
      foldBlocks_done_mono hd1] at hH
    exact Bool.noConfusion hH

/-- Chunk-boundary invariance of the guarded read loop: as long as the
frames of the full byte sequence never set the `done` flag before the last
frame, every chunking yields the same session state, the same decoded frame
trace and the same final `done` flag as delivering everything in one
chunk. -/
theorem chunk_invariance (s0 : Session) (bytes : List Nat) (parts : List (List Nat))
    (hj : parts.flatten = bytes)
    (hH : (foldBlocks ⟨s0, false, []⟩ (fullBlocks bytes).dropLast).done = false) :
    (runChunks (s0, newStream) parts).1 = (feed s0 newStream bytes).1 ∧
    (runChunks (s0, newStream) parts).2.events = (feed s0 newStream bytes).2.events ∧
    (runChunks (s0, newStream) parts).2.done = (feed s0 newStream bytes).2.done := by
  obtain ⟨k, hk, heq, hor⟩ := runChunks_from_feed s0 parts []
  simp only [List.nil_append] at heq hor
  have hrun : runChunks (s0, newStream) parts = feed s0 newStream ((parts.take k).flatten) := by
    rw [← feed_nil s0]
    exact heq
  rcases hor with hkl | hdone
  · subst hkl
    rw [List.take_length] at hrun
    rw [hrun, hj]
    exact ⟨rfl, rfl, rfl⟩
  · have hsplit : bytes = (parts.take k).flatten ++ (parts.drop k).flatten := by
      rw [← hj, ← List.flatten_append, List.take_append_drop]
    rw [hrun, hsplit]
    rw [hsplit] at hH
    obtain ⟨h1, h2, h3⟩ := feed_done_stable hdone hH
    exact ⟨h1.symm, h2.symm, h3.symm⟩

/-! ### Lemmas: a decoded `hitl` frame stops all later reads -/

theorem applyEvent_hitl (s : Session) (d : Bool) (p : List Char) (j : Json)
    (hp : parseJson p = some j) :
    applyEvent s d (("hitl").data) p =
      ({ s with hitlData := some j, status := some (.str waitingMsg) }, true) := by
  unfold applyEvent
  rw [if_neg (by decide), if_pos rfl, hp]

theorem applyEvent_hitl_done (s : Session) (d : Bool) (p : List Char)
    (hp : parseJson p ≠ none) :
    (applyEvent s d (("hitl").data) p).2 = true := by
  cases hj : parseJson p with
  | none => exact absurd hj hp
  | some j => rw [applyEvent_hitl s d p j hj]

theorem hitlInv_nil : HitlInv false [] := by
  intro p hmem _
  exact absurd hmem (List.not_mem_nil _)

theorem hitlInv_applyBlock {f : Fold} (h : HitlInv f.done f.events) (b : List Char) :
    HitlInv (applyBlock f b).done (applyBlock f b).events := by
  unfold applyBlock
  cases hb : parseFrame b with
  | none => exact h
  | some tp =>
    obtain ⟨t, p0⟩ := tp
    intro p hmem hp
    simp only at hmem
    rw [List.mem_append] at hmem
    rcases hmem with hm | hm
    · have hd := h p hm hp
      rw [hd]
      exact applyEvent_snd_true _ _ _
    · simp only [List.mem_singleton, Prod.mk.injEq] at hm
      obtain ⟨ht, hp0⟩ := hm
      rw [← ht, ← hp0] at *
      exact applyEvent_hitl_done _ _ _ hp

theorem hitlInv_foldBlocks {f : Fold} (h : HitlInv f.done f.events)
    (bs : List (List Char)) :
    HitlInv (foldBlocks f bs).done (foldBlocks f bs).events := by
  induction bs generalizing f with
  | nil => exact h
  | cons b rest ih =>
    rw [foldBlocks_cons]
    exact ih (hitlInv_applyBlock h b)

theorem hitlInv_feed {s : Session} {st : StreamSt} (h : HitlInv st.done st.events)
    (bytes : List Nat) :
    HitlInv (feed s st bytes).2.done (feed s st bytes).2.events := by
  simp only [feed]
  exact hitlInv_foldBlocks h _

theorem hitlInv_stepChunk {p : Session × StreamSt} (h : HitlInv p.2.done p.2.events)
    (c : List Nat) :
    HitlInv (stepChunk p c).2.done (stepChunk p c).2.events := by
  unfold stepChunk
  split
  · exact h
  · exact hitlInv_feed h c

theorem hitlInv_runChunks' {p : Session × StreamSt} (h : HitlInv p.2.done p.2.events)
    (cs : List (List Nat)) :
    HitlInv (runChunks p cs).2.done (runChunks p cs).2.events := by
  induction cs generalizing p with
  | nil => exact h
  | cons c rest ih =>
    rw [runChunks_cons]
    exact ih (hitlInv_stepChunk h c)

theorem hitlInv_runChunks (s0 : Session) (cs : List (List Nat)) :
    HitlInv (runChunks (s0, newStream) cs).2.done
      (runChunks (s0, newStream) cs).2.events :=
  hitlInv_runChunks' hitlInv_nil cs

theorem runChunks_append (p : Session × StreamSt) (c1 c2 : List (List Nat)) :
    runChunks p (c1 ++ c2) = runChunks (runChunks p c1) c2 :=
  List.foldl_append _ _ _ _

/-! ### Lemmas: individual event branches -/

theorem applyEvent_badJson (s : Session) (d : Bool) (t p : List Char)
    (hp : parseJson p = none) (ht : t ≠ ("done").data) :
    applyEvent s d t p = (s, d) := by
  unfold applyEvent
  repeat' split
  all_goals simp_all

theorem applyEvent_thread_id (s : Session) (d : Bool) (p : List Char) (j : Json) (v : JsV)
    (hp : parseJson p = some j) (hv : jsGet j (("thread_id").data) = .val v) :
    applyEvent s d (("thread_id").data) p =
      ({ s with threadId := v, store := some (displayJsV (p.length + 1) v) }, d) := by
  unfold applyEvent
  rw [if_pos rfl]
  simp only [hp, hv]

theorem applyEvent_thread_id_threw (s : Session) (d : Bool) (p : List Char) (j : Json)
    (hp : parseJson p = some j) (hv : jsGet j (("thread_id").data) = .threw) :
    applyEvent s d (("thread_id").data) p = (s, d) := by
  unfold applyEvent
  rw [if_pos rfl]
  simp only [hp, hv]

theorem applyEvent_status (s : Session) (d : Bool) (p : List Char) (j : Json) (v : JsV)
    (hp : parseJson p = some j) (hv : jsGet j (("status").data) = .val v) :
    applyEvent s d (("status").data) p = ({ s with status := v }, d) := by
  unfold applyEvent
  rw [if_neg (by decide), if_neg (by decide), if_pos rfl]
  simp only [hp, hv]

theorem applyEvent_status_threw (s : Session) (d : Bool) (p : List Char) (j : Json)
    (hp : parseJson p = some j) (hv : jsGet j (("status").data) = .threw) :
    applyEvent s d (("status").data) p = (s, d) := by
  unfold applyEvent
  rw [if_neg (by decide), if_neg (by decide), if_pos rfl]
  simp only [hp, hv]

theorem applyEvent_plan (s : Session) (d : Bool) (p : List Char) (j : Json)
    (hp : parseJson p = some j) :
    applyEvent s d (("plan").data) p = ({ s with campaignPlan := some j }, d) := by
  unfold applyEvent
  rw [if_neg (by decide), if_neg (by decide), if_neg (by decide), if_pos rfl]
  simp only [hp]

theorem applyEvent_party (s : Session) (d : Bool) (p : List Char) (j : Json)
    (hp : parseJson p = some j) :
    applyEvent s d (("party").data) p = ({ s with partyDetails := some j }, d) := by
  unfold applyEvent
  rw [if_neg (by decide), if_neg (by decide), if_neg (by decide), if_neg (by decide),
    if_pos rfl]
  simp only [hp]

theorem applyEvent_narrative (s : Session) (d : Bool) (p : List Char) (j : Json)
    (hp : parseJson p = some j) :
    applyEvent s d (("narrative").data) p = ({ s with narrative := some j }, d) := by
  unfold applyEvent
  rw [if_neg (by decide), if_neg (by decide), if_neg (by decide), if_neg (by decide),
    if_neg (by decide), if_pos rfl]
  simp only [hp]

theorem applyEvent_error (s : Session) (d : Bool) (p : List Char) (j : Json) (v : JsV)
    (hp : parseJson p = some j) (hv : jsGet j (("error").data) = .val v) :
    applyEvent s d (("error").data) p =
      ({ s with status := some (.str (errorPrefix ++ displayJsV (p.length + 1) v)) },
        true) := by
  unfold applyEvent
  rw [if_neg (by decide), if_neg (by decide), if_neg (by decide), if_neg (by decide),
    if_neg (by decide), if_neg (by decide), if_pos rfl]
  simp only [hp, hv]

theorem applyEvent_error_threw (s : Session) (d : Bool) (p : List Char) (j : Json)
    (hp : parseJson p = some j) (hv : jsGet j (("error").data) = .threw) :
    applyEvent s d (("error").data) p = (s, d) := by
  unfold applyEvent
  rw [if_neg (by decide), if_neg (by decide), if_neg (by decide), if_neg (by decide),
    if_neg (by decide), if_neg (by decide), if_pos rfl]
  simp only [hp, hv]

theorem applyEvent_done_ev (s : Session) (d : Bool) (p : List Char) :
    applyEvent s d (("done").data) p = ({ s with status := some (.str completeMsg) }, true) := by
  unfold applyEvent
  rw [if_neg (by decide), if_neg (by decide), if_neg (by decide), if_neg (by decide),
    if_neg (by decide), if_neg (by decide), if_neg (by decide), if_pos rfl]

theorem applyEvent_unknown (s : Session) (d : Bool) (t p : List Char)
    (h1 : t ≠ ("thread_id").data) (h2 : t ≠ ("hitl").data) (h3 : t ≠ ("status").data)
    (h4 : t ≠ ("plan").data) (h5 : t ≠ ("party").data) (h6 : t ≠ ("narrative").data)
    (h7 : t ≠ ("error").data) (h8 : t ≠ ("done").data) :
    applyEvent s d t p = (s, d) := by
  unfold applyEvent
  rw [if_neg h1, if_neg h2, if_neg h3, if_neg h4, if_neg h5, if_neg h6, if_neg h7,
    if_neg h8]

theorem applyEvent_threadId_const (s : Session) (d : Bool) (t p : List Char)
    (ht : t ≠ ("thread_id").data) :
    (applyEvent s d t p).1.threadId = s.threadId ∧
    (applyEvent s d t p).1.store = s.store := by
  unfold applyEvent
  repeat' split
  all_goals simp_all

/-! ### Lemmas: the part_006 stream processor projects onto part_005's -/

theorem applyEvent6_proj (s6 : Session6) (d : Bool) (t p : List Char) :
    projSession6 (applyEvent6 s6 d t p).1 = (applyEvent (projSession6 s6) d t p).1 ∧
    (applyEvent6 s6 d t p).2 = (applyEvent (projSession6 s6) d t p).2 := by
  unfold applyEvent applyEvent6
  by_cases h1 : t = ("thread_id").data
  · rw [if_pos h1, if_pos h1]
    cases hpj : parseJson p with
    | none => simp [hpj, projSession6]
    | some j =>
      simp only [hpj]
      cases hjg : jsGet j (("thread_id").data) with
      | threw => simp [hjg, projSession6]
      | val v => simp [hjg, projSession6]
  rw [if_neg h1, if_neg h1]
  by_cases h2 : t = ("hitl").data
  · rw [if_pos h2, if_pos h2]
    cases hpj : parseJson p with
    | none => simp [hpj, projSession6]
    | some j => simp [hpj, projSession6]
  rw [if_neg h2, if_neg h2]
  by_cases h3 : t = ("status").data
  · rw [if_pos h3, if_pos h3]
    cases hpj : parseJson p with
    | none => simp [hpj, projSession6]
    | some j =>
      simp only [hpj]
      cases hjg : jsGet j (("status").data) with
      | threw => simp [hjg, projSession6]
      | val v => simp [hjg, projSession6]
  rw [if_neg h3, if_neg h3]
  by_cases h4 : t = ("plan").data
  · rw [if_pos h4, if_pos h4]
    cases hpj : parseJson p with
    | none => simp [hpj, projSession6]
    | some j => simp [hpj, projSession6]
  rw [if_neg h4, if_neg h4]
  by_cases h5 : t = ("party").data
  · rw [if_pos h5, if_pos h5]
    cases hpj : parseJson p with
    | none => simp [hpj, projSession6]
    | some j => simp [hpj, projSession6]
  rw [if_neg h5, if_neg h5]
  by_cases h6 : t = ("narrative").data
  · rw [if_pos h6, if_pos h6]
    cases hpj : parseJson p with
    | none => simp [hpj, projSession6]
    | some j => simp [hpj, projSession6]
  rw [if_neg h6, if_neg h6]
  by_cases h7 : t = ("error").data
  · rw [if_pos h7, if_pos h7]
    cases hpj : parseJson p with
    | none => simp [hpj, projSession6]
    | some j =>
      simp only [hpj]
      cases hjg : jsGet j (("error").data) with
      | threw => simp [hjg, projSession6]
      | val v => simp [hjg, projSession6]
  rw [if_neg h7, if_neg h7]
  by_cases h8 : t = ("done").data
  · rw [if_pos h8, if_pos h8]
    exact ⟨rfl, rfl⟩
  rw [if_neg h8, if_neg h8]
  exact ⟨rfl, rfl⟩

theorem applyBlock6_proj (f6 : Fold6) (b : List Char) :
    projFold6 (applyBlock6 f6 b) = applyBlock (projFold6 f6) b := by
  unfold applyBlock applyBlock6
  cases hb : parseFrame b with
  | none => rfl
  | some tp =>
    obtain ⟨t, p⟩ := tp
    obtain ⟨h1, h2⟩ := applyEvent6_proj f6.sess f6.done t p
    simp only [projFold6, h1, h2]

theorem foldBlocks6_proj (f6 : Fold6) (bs : List (List Char)) :
    projFold6 (foldBlocks6 f6 bs) = foldBlocks (projFold6 f6) bs := by
  induction bs generalizing f6 with
  | nil => rfl
  | cons b rest ih =>
    show projFold6 (foldBlocks6 (applyBlock6 f6 b) rest) = _
    rw [ih, applyBlock6_proj, foldBlocks_cons]

theorem feed6_proj (s6 : Session6) (st : StreamSt) (bytes : List Nat) :
    projSession6 (feed6 s6 st bytes).1 = (feed (projSession6 s6) st bytes).1 ∧
    (feed6 s6 st bytes).2 = (feed (projSession6 s6) st bytes).2 := by
  simp only [feed, feed6]
  have h := foldBlocks6_proj ⟨s6, st.done, st.events⟩
    (extract (st.buffer ++ (utf8Fold ([], st.pending) bytes).1)).1
  have h1 := congrArg Fold.sess h
  have h2 := congrArg Fold.done h
  have h3 := congrArg Fold.events h
  simp only [projFold6] at h1 h2 h3
  exact ⟨h1, by rw [h2, h3]⟩

theorem runChunks6_proj (cs : List (List Nat)) (s6 : Session6) (st : StreamSt) :
    projSession6 (runChunks6 (s6, st) cs).1 = (runChunks (projSession6 s6, st) cs).1 ∧
    (runChunks6 (s6, st) cs).2 = (runChunks (projSession6 s6, st) cs).2 := by
  induction cs generalizing s6 st with
  | nil => exact ⟨rfl, rfl⟩
  | cons c rest ih =>
    rw [show runChunks6 (s6, st) (c :: rest) = runChunks6 (stepChunk6 (s6, st) c) rest
      from rfl, runChunks_cons]
    by_cases hd : st.done = true
    · have h6 : stepChunk6 (s6, st) c = (s6, st) := by
        unfold stepChunk6
        rw [if_pos hd]
      have h5 : stepChunk (projSession6 s6, st) c = (projSession6 s6, st) := by
        unfold stepChunk
        rw [if_pos hd]
      rw [h6, h5]
      exact ih s6 st
    · have h6 : stepChunk6 (s6, st) c = feed6 s6 st c := by
        unfold stepChunk6
        rw [if_neg hd]
      have h5 : stepChunk (projSession6 s6, st) c = feed (projSession6 s6) st c := by
        unfold stepChunk
        rw [if_neg hd]
      rw [h6, h5]
      obtain ⟨hf1, hf2⟩ := feed6_proj s6 st c
      have hpair : feed (projSession6 s6) st c =
          (projSession6 (feed6 s6 st c).1, (feed6 s6 st c).2) := by
        rw [hf1, hf2]
      rw [hpair]
      exact ih (feed6 s6 st c).1 (feed6 s6 st c).2

/-! ### Lemmas: `parseFrame` against its spec-side description -/

theorem mem_trimLeft {l : List Char} {c : Char} (hc : c ∈ l) (hw : jsWsChar c = false) :
    c ∈ trimLeft l := by
  induction l with
  | nil => exact absurd hc (List.not_mem_nil c)
  | cons x r ih =>
    unfold trimLeft
    by_cases hx : jsWsChar x = true
    · rw [if_pos hx]
      rcases List.mem_cons.mp hc with hcx | hcr
      · subst hcx; exact absurd hx (by rw [hw]; decide)
      · exact ih hcr
    · rw [if_neg hx]
      exact hc

theorem mem_jsTrim {l : List Char} {c : Char} (hc : c ∈ l) (hw : jsWsChar c = false) :
    c ∈ jsTrim l := by
  unfold jsTrim
  have h1 : c ∈ trimLeft l.reverse := mem_trimLeft (List.mem_reverse.mpr hc) hw
  have h2 : c ∈ (trimLeft l.reverse).reverse := List.mem_reverse.mpr h1
  exact mem_trimLeft h2 hw

theorem jsTrim_ne_nil_of_pre {ev : List Char}
    (hpre : (("event: ").data).isPrefixOf ev = true) : jsTrim ev ≠ [] := by
  obtain ⟨t, ht⟩ := List.isPrefixOf_iff_prefix.mp hpre
  intro hnil
  have he : 'e' ∈ ev := by
    rw [← ht]
    exact List.mem_append_left _ (by decide)
  have := mem_jsTrim he (by decide)
  rw [hnil] at this
  exact absurd this (List.not_mem_nil _)

theorem newline_mem_drop7 {ev : List Char}
    (hpre : (("event: ").data).isPrefixOf ev = true) (hnl : '\n' ∈ ev) :
    '\n' ∈ ev.drop 7 := by
  obtain ⟨t, ht⟩ := List.isPrefixOf_iff_prefix.mp hpre
  rw [← ht] at hnl ⊢
  have h7 : (("event: ").data).length = 7 := by decide
  rw [show (7 : Nat) = (("event: ").data).length from h7.symm, List.drop_left]
  rcases List.mem_append.mp hnl with h | h
  · exact absurd h (by decide)
  · exact h

theorem nl_mem_of_term {l : List Char}
    (h : l.take 1 = ['\n'] ∨ l.take 2 = ['\r', '\n']) : '\n' ∈ l := by
  rcases h with h | h
  · exact List.take_subset 1 l (by rw [h]; exact List.mem_singleton_self '\n')
  · exact List.take_subset 2 l (by rw [h]; decide)

theorem jsDot_false_cases {c : Char} (h : jsDot c = false) :
    c = '\n' ∨ c = '\r' ∨ c = '\u2028' ∨ c = '\u2029' := by
  by_cases h1 : c = '\n'
  · exact Or.inl h1
  · by_cases h2 : c = '\r'
    · exact Or.inr (Or.inl h2)
    · by_cases h3 : c = '\u2028'
      · exact Or.inr (Or.inr (Or.inl h3))
      · by_cases h4 : c = '\u2029'
        · exact Or.inr (Or.inr (Or.inr h4))
        · exfalso
          unfold jsDot at h
          simp [h1, h2, h3, h4] at h

theorem dropWhile_jsDot_head {l : List Char}
    (hnl : '\n' ∈ l) (hcr : '\r' ∉ l) (hls : '\u2028' ∉ l) (hps : '\u2029' ∉ l) :
    (l.dropWhile jsDot).take 1 = ['\n'] := by
  induction l with
  | nil => exact absurd hnl (List.not_mem_nil _)
  | cons c r ih =>
    by_cases hc : jsDot c = true
    · rw [List.dropWhile_cons_of_pos hc]
      have hnlr : '\n' ∈ r := by
        rcases List.mem_cons.mp hnl with h | h
        · rw [← h] at hc
          exact absurd hc (by decide)
        · exact h
      exact ih hnlr (fun hm => hcr (List.mem_cons_of_mem c hm))
        (fun hm => hls (List.mem_cons_of_mem c hm))
        (fun hm => hps (List.mem_cons_of_mem c hm))
    · rw [List.dropWhile_cons_of_neg hc]
      have hcnl : c = '\n' := by
        rcases jsDot_false_cases (Bool.eq_false_iff.mpr hc) with h | h | h | h
        · exact h
        · subst h
          exact absurd (List.mem_cons_self _ _) hcr
        · subst h
          exact absurd (List.mem_cons_self _ _) hls
        · subst h
          exact absurd (List.mem_cons_self _ _) hps
      rw [hcnl]
      rfl

theorem drop_takeWhile_eq_dropWhile (l : List Char) (p : Char → Bool) :
    l.drop (l.takeWhile p).length = l.dropWhile p := by
  nth_rewrite 2 [show l = l.takeWhile p ++ l.dropWhile p from
    (List.takeWhile_append_dropWhile p l).symm]
  rw [List.drop_left]

theorem evLineCapture_none {ev : List Char} (h : '\n' ∉ ev) : evLineCapture ev = none := by
  induction ev with
  | nil => rfl
  | cons c rest ih =>
    have hrest : '\n' ∉ rest := fun hm => h (List.mem_cons_of_mem c hm)
    unfold evLineCapture
    split
    · rw [if_neg]
      · exact ih hrest
      · intro hterm
        exact h (List.mem_of_mem_drop (List.mem_of_mem_drop (nl_mem_of_term hterm)))
    · exact ih hrest

theorem evLineCapture_of_mem {ev : List Char}
    (hpre : (("event: ").data).isPrefixOf ev = true) (hnl : '\n' ∈ ev)
    (hcr : '\r' ∉ ev) (hls : '\u2028' ∉ ev) (hps : '\u2029' ∉ ev) :
    evLineCapture ev = some ((ev.drop 7).takeWhile jsDot) := by
  cases ev with
  | nil => exact absurd hpre (by decide)
  | cons c rest =>
    unfold evLineCapture
    rw [if_pos hpre, if_pos]
    left
    rw [drop_takeWhile_eq_dropWhile ((c :: rest).drop 7) jsDot]
    exact dropWhile_jsDot_head (newline_mem_drop7 hpre hnl)
      (fun hm => hcr (List.mem_of_mem_drop hm))
      (fun hm => hls (List.mem_of_mem_drop hm))
      (fun hm => hps (List.mem_of_mem_drop hm))

/-- The code's `parseFrame` coincides with the spec description — once the
event type is trimmed and a newline-free block is ignored — on every block
free of carriage returns and Unicode line separators. -/
theorem parseFrame_eq_amended (ev : List Char)
    (hcr : '\r' ∉ ev) (hls : '\u2028' ∉ ev) (hps : '\u2029' ∉ ev) :
    parseFrame ev = parseFrameAmended ev := by
  unfold parseFrame parseFrameAmended
  by_cases hpre : (("event: ").data).isPrefixOf ev = true
  · have hb : ((("event: ").data).isPrefixOf ev : Prop) := by simpa using hpre
    rw [if_neg (show ¬(jsTrim ev = [] ∨ ¬((("event: ").data).isPrefixOf ev : Prop)) from
        not_or.mpr ⟨jsTrim_ne_nil_of_pre hpre, not_not.mpr hb⟩),
      if_neg (not_not.mpr hb)]
    by_cases hnl : '\n' ∈ ev
    · rw [if_neg (not_not.mpr hnl), evLineCapture_of_mem hpre hnl hcr hls hps]
      cases indexOfSub (("data: ").data) ev with
      | none => rfl
      | some di => rfl
    · rw [if_pos hnl, evLineCapture_none hnl]
  · have hb : ¬((("event: ").data).isPrefixOf ev : Prop) := by simpa using hpre
    rw [if_pos (Or.inr hb), if_pos hb]

/-! ### Lemmas: the approval/phase invariant in the restricted model -/

theorem errorStatus_ne_waiting (x : List Char) : errorPrefix ++ x ≠ waitingMsg := by
  intro h
  have h0 : (errorPrefix ++ x).head? = some 'E' := rfl
  rw [h] at h0
  exact absurd h0 (by decide)

theorem reach_invC4 {s : Session} (h : ReachR s) : invC4 s := by
  induction h with
  | init =>
    unfold invC4
    decide
  | step s op hre hall ih =>
    cases op with
    | submit =>
      simp only [doROp]
      unfold handleSubmit invC4
      constructor
      · intro h2
        simp [jsvIsNullish] at h2
      · intro h2
        simp only [jsvAsStr, Option.some.injEq] at h2
        exact absurd h2 (by decide)
    | resume =>
      simp only [doROp]
      unfold handleResume invC4
      constructor
      · intro h2
        simp [jsvIsNullish] at h2
      · intro h2
        simp only [jsvAsStr, Option.some.injEq] at h2
        exact absurd h2 (by decide)
    | ev t p =>
      have hall' := hall
      simp only [allowedROp, Bool.and_eq_true, Bool.or_eq_true, decide_eq_true_eq] at hall'
      obtain ⟨⟨hstat, hhitl⟩, hstatus⟩ := hall'
      have hnul : jsvIsNullish s.hitlData = true := by
        by_contra hx
        exact hstat (ih.mp (by revert hx; cases jsvIsNullish s.hitlData <;> simp))
      simp only [doROp]
      by_cases h1 : t = ("thread_id").data
      · subst h1
        cases hpj : parseJson p with
        | none => rw [applyEvent_badJson s false _ p hpj (by decide)]; exact ih
        | some j =>
          cases hjg : jsGet j (("thread_id").data) with
          | threw => rw [applyEvent_thread_id_threw s false p j hpj hjg]; exact ih
          | val v => rw [applyEvent_thread_id s false p j v hpj hjg]; exact ih
      by_cases h2 : t = ("hitl").data
      · subst h2
        cases hpj : parseJson p with
        | none => rw [applyEvent_badJson s false _ p hpj (by decide)]; exact ih
        | some j =>
          rw [applyEvent_hitl s false p j hpj]
          have hj : j ≠ .null := by
            rcases hhitl with hne | hm
            · exact absurd rfl hne
            · rw [hpj] at hm
              intro hjn
              subst hjn
              simp at hm
          unfold invC4
          constructor
          · intro _
            rfl
          · intro _
            cases j with
            | null => exact absurd rfl hj
            | bool b => rfl
            | num l => rfl
            | str l => rfl
            | arr xs => rfl
            | obj kvs => rfl
      by_cases h3 : t = ("status").data
      · subst h3
        cases hpj : parseJson p with
        | none => rw [applyEvent_badJson s false _ p hpj (by decide)]; exact ih
        | some j =>
          cases hjg : jsGet j (("status").data) with
          | threw => rw [applyEvent_status_threw s false p j hpj hjg]; exact ih
          | val v =>
            rw [applyEvent_status s false p j v hpj hjg]
            have hv : jsvAsStr v ≠ some waitingMsg := by
              rcases hstatus with hne | hm
              · exact absurd rfl hne
              · rw [hpj] at hm
                simp only [hjg, decide_eq_true_eq] at hm
                exact hm
            unfold invC4
            constructor
            · intro hfalse
              rw [show ({ s with status := v } : Session).hitlData = s.hitlData from rfl,
                hnul] at hfalse
              exact absurd hfalse (by decide)
            · intro hw
              exact absurd hw hv
      by_cases h4 : t = ("plan").data
      · subst h4
        cases hpj : parseJson p with
        | none => rw [applyEvent_badJson s false _ p hpj (by decide)]; exact ih
        | some j => rw [applyEvent_plan s false p j hpj]; exact ih
      by_cases h5 : t = ("party").data
      · subst h5
        cases hpj : parseJson p with
        | none => rw [applyEvent_badJson s false _ p hpj (by decide)]; exact ih
        | some j => rw [applyEvent_party s false p j hpj]; exact ih
      by_cases h6 : t = ("narrative").data
      · subst h6
        cases hpj : parseJson p with
        | none => rw [applyEvent_badJson s false _ p hpj (by decide)]; exact ih
        | some j => rw [applyEvent_narrative s false p j hpj]; exact ih
      by_cases h7 : t = ("error").data
      · subst h7
        cases hpj : parseJson p with
        | none => rw [applyEvent_badJson s false _ p hpj (by decide)]; exact ih
        | some j =>
          cases hjg : jsGet j (("error").data) with
          | threw => rw [applyEvent_error_threw s false p j hpj hjg]; exact ih
          | val v =>
            rw [applyEvent_error s false p j v hpj hjg]
            unfold invC4
            constructor
            · intro hfalse
              rw [show ({ s with status := some (.str (errorPrefix ++
                  displayJsV (p.length + 1) v)) } : Session).hitlData = s.hitlData from rfl,
                hnul] at hfalse
              exact absurd hfalse (by decide)
            · intro hw
              simp only [jsvAsStr, Option.some.injEq] at hw
              exact absurd hw (errorStatus_ne_waiting _)
      by_cases h8 : t = ("done").data
      · subst h8
        rw [applyEvent_done_ev s false p]
        unfold invC4
        constructor
        · intro hfalse
          rw [show ({ s with status := some (.str completeMsg) } : Session).hitlData =
              s.hitlData from rfl, hnul] at hfalse
          exact absurd hfalse (by decide)
        · intro hw
          simp only [jsvAsStr, Option.some.injEq] at hw
          exact absurd hw (by decide)
      rw [applyEvent_unknown s false t p h1 h2 h3 h4 h5 h6 h7 h8]
      exact ih

/-! ### Lemmas: stream instances in the interleaved system -/

theorem get?_append_elim {α : Type} {l1 l2 : List α} {k : Nat} {x : α}
    (h : (l1 ++ l2).get? k = some x) :
    l1.get? k = some x ∨ ∃ j, l2.get? j = some x := by
  induction l1 generalizing k with
  | nil => exact Or.inr ⟨k, h⟩
  | cons a r ih =>
    cases k with
    | zero => exact Or.inl h
    | succ k =>
      rcases ih h with h1 | h2
      · exact Or.inl h1
      · exact Or.inr h2

theorem get?_set_elim {α : Type} {l : List α} {i k : Nat} {a x : α}
    (h : (l.set i a).get? k = some x) :
    l.get? k = some x ∨ x = a := by
  induction l generalizing i k with
  | nil => exact Option.noConfusion h
  | cons b r ih =>
    cases i with
    | zero =>
      cases k with
      | zero =>
        injection h with h
        exact Or.inr h.symm
      | succ k => exact Or.inl h
    | succ i =>
      cases k with
      | zero => exact Or.inl h
      | succ k =>
        rcases ih h with h1 | h2
        · exact Or.inl h1
        · exact Or.inr h2

theorem singleton_get?_newStream {j : Nat} {st : StreamSt}
    (h : ([newStream] : List StreamSt).get? j = some st) : st = newStream := by
  cases j with
  | zero =>
    injection h with h
    exact h.symm
  | succ j => exact Option.noConfusion h

theorem sysHitlInv_step {sys : SysState} (h : SysHitlInv sys) (a : Act) :
    SysHitlInv (stepAct sys a) := by
  cases a with
  | submit =>
    intro k st hk
    rcases get?_append_elim hk with h1 | ⟨j, hj⟩
    · exact h k st h1
    · rw [singleton_get?_newStream hj]
      exact hitlInv_nil
  | resume =>
    simp only [stepAct]
    split
    · intro k st hk
      rcases get?_append_elim hk with h1 | ⟨j, hj⟩
      · exact h k st h1
      · rw [singleton_get?_newStream hj]
        exact hitlInv_nil
    · exact h
  | deliver k bytes =>
    cases hg : sys.insts.get? k with
    | none =>
      simp only [stepAct, hg]
      exact h
    | some st =>
      simp only [stepAct, hg]
      split
      · exact h
      · intro k2 st2 hk2
        rcases get?_set_elim hk2 with h1 | h2
        · exact h k2 st2 h1
        · rw [h2]
          exact hitlInv_feed (h k st hg) bytes

theorem sysHitlInv_foldl (acts : List Act) :
    ∀ sys, SysHitlInv sys → SysHitlInv (acts.foldl stepAct sys) := by
  induction acts with
  | nil => exact fun sys h => h
  | cons a rest ih => exact fun sys h => ih (stepAct sys a) (sysHitlInv_step h a)

theorem sysHitlInv_runActs (acts : List Act) : SysHitlInv (runActs acts) :=
  sysHitlInv_foldl acts initSys (fun _ _ hk => Option.noConfusion hk)

theorem stepAct_deliver_done {sys : SysState} {k : Nat} {st : StreamSt}
    (hg : sys.insts.get? k = some st) (hd : st.done = true) (bytes : List Nat) :
    stepAct sys (.deliver k bytes) = sys := by
  simp only [stepAct, hg]
  rw [if_pos hd]

theorem processStream_single (s0 : Session) (bytes : List Nat) :
    processStream s0 [bytes] = feed s0 newStream bytes := rfl

/-! ### The claims -/

set_option maxRecDepth 10000000

/-- Claim C1 (counterexample): chunk-boundary invariance fails as stated.
The well-formed frame sequence `hitl`-frame + `status`-frame decodes both
frames when delivered as one chunk (the inner loop drains the buffer after
the `hitl`), but only the `hitl` frame when split at the frame boundary
(the `done` flag stops the second read) — the decoded event sequences and
the resulting session states differ. -/
theorem claim_C1_counterexample :
    (processStream initSession [hitlBytes ++ statusBytes]).2.events ≠
      (processStream initSession [hitlBytes, statusBytes]).2.events ∧
    jsvAsStr (processStream initSession [hitlBytes ++ statusBytes]).1.status ≠
      jsvAsStr (processStream initSession [hitlBytes, statusBytes]).1.status := by
  decide

/-- Claim C1 (amended): chunk-boundary invariance, restricted to byte
sequences whose frames never set the `done` flag before the last frame
(i.e. no `hitl`/`error`/`done` frame is followed by further frames):
delivering the bytes in any chunking — including splits inside a
multi-byte UTF-8 character, a field name or a JSON payload — yields the
same session state, the same decoded `(eventType, payload)` sequence and
the same final `done` flag as one single chunk. -/
theorem claim_C1 (s0 : Session) (bytes : List Nat) (parts : List (List Nat))
    (hj : parts.flatten = bytes)
    (hH : (foldBlocks ⟨s0, false, []⟩ (fullBlocks bytes).dropLast).done = false) :
    (runChunks (s0, newStream) parts).1 = (processStream s0 [bytes]).1 ∧
    (runChunks (s0, newStream) parts).2.events = (processStream s0 [bytes]).2.events ∧
    (runChunks (s0, newStream) parts).2.done = (processStream s0 [bytes]).2.done := by
  rw [processStream_single]
  exact chunk_invariance s0 bytes parts hj hH

/-- Witness for C1: a frame whose payload contains a two-byte character,
split in the middle of that character (bytes 32/33 are the two halves of
`ä`). -/
theorem claim_C1_witness :
    ([umlautBytes.take 33, umlautBytes.drop 33].flatten = umlautBytes) ∧
    (runChunks (initSession, newStream) [umlautBytes.take 33, umlautBytes.drop 33]).1 =
      (processStream initSession [umlautBytes]).1 :=
  ⟨by decide,
    (claim_C1 initSession umlautBytes [umlautBytes.take 33, umlautBytes.drop 33]
      (by decide) (by decide)).1⟩

/-- Claim C2 (counterexample): a frame that sits in the same chunk after a
`hitl` frame is still folded: in a single chunk carrying a `hitl` frame and
then a `status` frame, the `status` frame appears in the decoded trace and
overwrites the approval status message. -/
theorem claim_C2_counterexample :
    ((("status").data, ("\x7b\"status\":\"Planning...\"\x7d").data) ∈
      (processStream initSession [hitlBytes ++ statusBytes]).2.events) ∧
    jsvAsStr (processStream initSession [hitlBytes ++ statusBytes]).1.status =
      some (("Planning...").data) := by
  decide

/-- Claim C2 (amended): once a `hitl` frame with parseable payload has been
decoded, no frame arriving in a *later chunk* is ever consumed: appending
any further chunks to the delivery leaves the run — session state, trace,
everything — unchanged.  (Frames already sliced from the same chunk's
buffer are still folded, as the counterexample shows.) -/
theorem claim_C2 (s0 : Session) (c1 c2 : List (List Nat)) (p : List Char)
    (hmem : ((("hitl").data, p)) ∈ (processStream s0 c1).2.events)
    (hp : (parseJson p).isSome = true) :
    processStream s0 (c1 ++ c2) = processStream s0 c1 := by
  unfold processStream
  rw [runChunks_append]
  have hne : parseJson p ≠ none := fun h => by rw [h] at hp; exact Bool.noConfusion hp
  exact runChunks_done (hitlInv_runChunks s0 c1 p hmem hne) c2

/-- Witness for C2: after a chunk delivering one `hitl` frame, a further
chunk carrying a `status` frame changes nothing. -/
theorem claim_C2_witness :
    processStream initSession ([hitlBytes] ++ [statusBytes]) =
      processStream initSession [hitlBytes] :=
  claim_C2 initSession [hitlBytes] [statusBytes] (("\x7b\"a\":1\x7d").data)
    (by decide) (by decide)

/-- Claim C3 (counterexample): a frame with an `event:` line and invalid
JSON in `data:` is not always dropped: a `done`-typed frame never parses
its payload, so `event: done` with garbage data still completes the
session and stops consumption — the following well-formed `status` frame
is never decoded. -/
theorem claim_C3_counterexample :
    jsvAsStr (processStream initSession
        [utf8Encode doneBadFrame, statusBytes]).1.status = some completeMsg ∧
    ¬ ((("status").data, ("\x7b\"status\":\"Planning...\"\x7d").data) ∈
      (processStream initSession [utf8Encode doneBadFrame, statusBytes]).2.events) := by
  decide

/-- Claim C3 (amended): a frame of any type other than `done` whose payload
is not valid JSON is silently dropped: the session state and the `done`
flag after folding it are exactly those of the same fold without it, so
every subsequent frame is still decoded and folded identically (the buffer
advance past the frame happened at extraction, before parsing). -/
theorem claim_C3 (f : Fold) (b : List Char) (bs : List (List Char)) (t p : List Char)
    (hf : parseFrame b = some (t, p)) (hj : parseJson p = none)
    (ht : t ≠ ("done").data) :
    (foldBlocks f (b :: bs)).sess = (foldBlocks f bs).sess ∧
    (foldBlocks f (b :: bs)).done = (foldBlocks f bs).done := by
  rw [foldBlocks_cons]
  have hab : applyBlock f b = ⟨f.sess, f.done, f.events ++ [(t, p)]⟩ := by
    unfold applyBlock
    simp only [hf]
    rw [applyEvent_badJson f.sess f.done t p hj ht]
  rw [hab]
  rw [foldBlocks_events f.sess f.done (f.events ++ [(t, p)]) bs,
    foldBlocks_events f.sess f.done f.events bs]
  exact ⟨rfl, rfl⟩

/-- Witness for C3: a `plan` frame carrying unparseable JSON leaves the
fold of a subsequent `status` frame unaffected. -/
theorem claim_C3_witness :
    (foldBlocks ⟨initSession, false, []⟩
        [("event: plan\ndata: nope\n\n").data, statusFrameX]).sess =
      (foldBlocks ⟨initSession, false, []⟩ [statusFrameX]).sess :=
  (claim_C3 ⟨initSession, false, []⟩ (("event: plan\ndata: nope\n\n").data)
    [statusFrameX] (("plan").data) (("nope").data) (by decide) (by rfl)
    (by decide)).1

/-- Claim C4 (counterexample): the approval/phase invariant fails on the
code: loading a thread whose fetched document has an empty `messages`
array sets the status to the literal awaiting-approval message while
`hitlData` stays null. -/
theorem claim_C4_counterexample :
    jsvAsStr (handleSelectThread initSession (("t1").data)
        (.ok (.obj [((("messages").data), .arr [])]))).status = some waitingMsg ∧
    jsvIsNullish (handleSelectThread initSession (("t1").data)
        (.ok (.obj [((("messages").data), .arr [])]))).hitlData = true := by
  decide

/-- Claim C4 (amended): the invariant `hitlData` non-null ⟺ status is the
awaiting-approval message holds for every state reachable from the initial
mount state by submissions, resumes and folded stream events, provided
events are not folded while awaiting approval, `hitl` payloads never parse
to JSON `null`, and `status` payloads never carry the literal approval
message.  Thread loads (`handleSelectThread`) are excluded: they break the
invariant, as the counterexample shows. -/
theorem claim_C4 (s : Session) (h : ReachR s) :
    (jsvIsNullish s.hitlData = false) ↔ (jsvAsStr s.status = some waitingMsg) :=
  reach_invC4 h

/-- Witness for C4: the state after a submission followed by a decoded
`hitl` event satisfies the invariant. -/
theorem claim_C4_witness :
    (jsvIsNullish (doROp (doROp initSession .submit)
        (.ev (("hitl").data) (("\x7b\"a\":1\x7d").data))).hitlData = false) ↔
      (jsvAsStr (doROp (doROp initSession .submit)
        (.ev (("hitl").data) (("\x7b\"a\":1\x7d").data))).status = some waitingMsg) :=
  claim_C4 _ (ReachR.step _ _ (ReachR.step _ _ ReachR.init (by decide)) (by decide))

/-- Claim C5 (counterexample): `threadId` is not immutable after its first
assignment: a stream with two `thread_id` frames first decodes the frame
carrying `alpha`, yet finishes with `threadId` (and the persisted store
value) equal to `beta`. -/
theorem claim_C5_counterexample :
    ((("thread_id").data, ("\x7b\"thread_id\":\"alpha\"\x7d").data) ∈
      (processStream initSession [utf8Encode (tidA ++ tidB)]).2.events) ∧
    jsvAsStr (processStream initSession [utf8Encode (tidA ++ tidB)]).1.threadId =
      some (("beta").data) ∧
    (processStream initSession [utf8Encode (tidA ++ tidB)]).1.store =
      some (("beta").data) := by
  decide

/-- Claim C5 (amended): every decoded `thread_id` event (whose payload
parses without throwing) sets `threadId` to the payload's `thread_id`
member and persists that value's string form under `dnd_active_thread_id`;
no event of any other type changes `threadId` or the persisted key.
Nothing prevents a second `thread_id` event from overwriting both, as the
counterexample shows. -/
theorem claim_C5 :
    (∀ (s : Session) (d : Bool) (t p : List Char), t ≠ ("thread_id").data →
      (applyEvent s d t p).1.threadId = s.threadId ∧
      (applyEvent s d t p).1.store = s.store) ∧
    (∀ (s : Session) (d : Bool) (p : List Char) (j : Json) (v : JsV),
      parseJson p = some j → jsGet j (("thread_id").data) = .val v →
      (applyEvent s d (("thread_id").data) p).1.threadId = v ∧
      (applyEvent s d (("thread_id").data) p).1.store =
        some (displayJsV (p.length + 1) v)) := by
  refine ⟨fun s d t p ht => applyEvent_threadId_const s d t p ht,
    fun s d p j v hp hv => ?_⟩
  rw [applyEvent_thread_id s d p j v hp hv]
  exact ⟨rfl, rfl⟩

/-- Witness for C5: a `status` event leaves `threadId` alone; a decoded
`thread_id` event sets it to the payload's identifier. -/
theorem claim_C5_witness :
    (applyEvent initSession false (("status").data)
        (("\x7b\"status\":\"x\"\x7d").data)).1.threadId = initSession.threadId ∧
    (applyEvent initSession false (("thread_id").data)
        (("\x7b\"thread_id\":\"alpha\"\x7d").data)).1.threadId =
      some (.str (("alpha").data)) :=
  ⟨(claim_C5.1 initSession false (("status").data)
      (("\x7b\"status\":\"x\"\x7d").data) (by decide)).1,
    (claim_C5.2 initSession false (("\x7b\"thread_id\":\"alpha\"\x7d").data)
      (.obj [((("thread_id").data), .str (("alpha").data))])
      (some (.str (("alpha").data))) (by rfl) (by rfl)).1⟩

/-- Claim C6 (counterexample): the claimed contract and the code disagree
in two ways.  On `event: x \ndata: 1` the code produces the *trimmed*
event type `x`, not the claimed raw text `x␣` up to the line terminator.
And because JavaScript `.` does not match a carriage return, on
`event: hitl\r\r\ndata: 1` the regex fails (the claimed `hitl` event is
never produced), while on `event: a\revent: b\ndata: 1` the match
relocates past the failed first occurrence and the code yields type `b`
where the claim demands `a`. -/
theorem claim_C6_counterexample :
    parseFrame (("event: x \ndata: 1").data) = some ((("x").data), (("1").data)) ∧
    parseFrameClaimed (("event: x \ndata: 1").data) =
      some ((("x ").data), (("1").data)) ∧
    parseFrame (("event: hitl\r\r\ndata: 1").data) = none ∧
    parseFrameClaimed (("event: hitl\r\r\ndata: 1").data) =
      some ((("hitl").data), (("1").data)) ∧
    parseFrame (("event: a\revent: b\ndata: 1").data) =
      some ((("b").data), (("1").data)) ∧
    parseFrameClaimed (("event: a\revent: b\ndata: 1").data) =
      some ((("a").data), (("1").data)) := by
  decide

/-- Claim C6 (amended): on every block free of carriage returns and
Unicode line separators — every block a conforming stream produces —
`parseFrame` behaves as claimed once the event type is also trimmed of
surrounding whitespace and a newline-free block is ignored: no event
unless the block starts with `event: `; the event type is the trimmed
text after `event: ` up to the first line terminator; the payload is the
trimmed text after the first `data: ` marker; no `data: ` marker (or no
newline) means no event.  On blocks with a `\r` in the event line the
regex `/event: (.*)\r?\n/` instead fails at that occurrence — JavaScript
`.` matches no LineTerminator — and relocates or drops the block. -/
theorem claim_C6 (ev : List Char) (hcr : '\r' ∉ ev)
    (hls : '\u2028' ∉ ev) (hps : '\u2029' ∉ ev) :
    parseFrame ev = parseFrameAmended ev :=
  parseFrame_eq_amended ev hcr hls hps

/-- Witness for C6: a concrete block free of carriage returns on which the
code and the amended contract agree (both trim the event type). -/
theorem claim_C6_witness :
    ('\r' ∉ (("event: x \ndata: 1").data)) ∧
    parseFrame (("event: x \ndata: 1").data) =
      parseFrameAmended (("event: x \ndata: 1").data) :=
  ⟨by decide, claim_C6 (("event: x \ndata: 1").data) (by decide) (by decide)
    (by decide)⟩

/-- Claim C7: a decoded `error` event only rewrites the status (to
`Error: ` followed by the payload's message) and terminates consumption;
and a transport-level failure only rewrites the status to the generic
connection-failure message and terminates consumption.  Plan, party,
narrative, threadId, hitlData and the persisted key survive both. -/
theorem claim_C7 :
    (∀ (s : Session) (d : Bool) (p : List Char) (j : Json) (v : JsV),
      parseJson p = some j → jsGet j (("error").data) = .val v →
      applyEvent s d (("error").data) p =
        ({ s with status := some (.str (errorPrefix ++ displayJsV (p.length + 1) v)) },
          true)) ∧
    (∀ q : Session × StreamSt,
      (transportFail q).1.campaignPlan = q.1.campaignPlan ∧
      (transportFail q).1.partyDetails = q.1.partyDetails ∧
      (transportFail q).1.narrative = q.1.narrative ∧
      (transportFail q).1.threadId = q.1.threadId ∧
      (transportFail q).1.hitlData = q.1.hitlData ∧
      (transportFail q).1.store = q.1.store ∧
      (transportFail q).2.done = true) := by
  refine ⟨fun s d p j v hp hv => applyEvent_error s d p j v hp hv, fun q => ?_⟩
  unfold transportFail
  split
  · next hdone => exact ⟨rfl, rfl, rfl, rfl, rfl, rfl, hdone⟩
  · exact ⟨rfl, rfl, rfl, rfl, rfl, rfl, rfl⟩

/-- Witness for C7: the concrete `error` event only sets the status, and a
transport failure on a fresh stream preserves the narrative. -/
theorem claim_C7_witness :
    applyEvent initSession false (("error").data) (("\x7b\"error\":\"boom\"\x7d").data) =
      ({ initSession with status := some (.str (errorPrefix ++ (("boom").data))) },
        true) ∧
    (transportFail (initSession, newStream)).1.narrative = initSession.narrative :=
  ⟨claim_C7.1 initSession false (("\x7b\"error\":\"boom\"\x7d").data)
      (.obj [((("error").data), .str (("boom").data))])
      (some (.str (("boom").data))) (by rfl) (by rfl),
    (claim_C7.2 (initSession, newStream)).2.1⟩

/-- Claim C8: feeding the literal example byte sequence in any three
chunks yields `threadId = "abc123"`, the awaiting-approval status, and a
pending approval whose `action_1_payload` is `approve`. -/
theorem claim_C8 (i k : Nat) :
    jsvAsStr (runChunks (initSession, newStream)
        [exampleBytes.take i, (exampleBytes.drop i).take k,
          (exampleBytes.drop i).drop k]).1.threadId = some (("abc123").data) ∧
    jsvAsStr (runChunks (initSession, newStream)
        [exampleBytes.take i, (exampleBytes.drop i).take k,
          (exampleBytes.drop i).drop k]).1.status = some waitingMsg ∧
    hitlField (runChunks (initSession, newStream)
        [exampleBytes.take i, (exampleBytes.drop i).take k,
          (exampleBytes.drop i).drop k]).1 (("action_1_payload").data) =
      some (("approve").data) := by
  have hj : [exampleBytes.take i, (exampleBytes.drop i).take k,
      (exampleBytes.drop i).drop k].flatten = exampleBytes := by
    simp [List.take_append_drop]
  have hH : (foldBlocks ⟨initSession, false, []⟩
      (fullBlocks exampleBytes).dropLast).done = false := by decide
  obtain ⟨h1, _, _⟩ := chunk_invariance initSession exampleBytes
    [exampleBytes.take i, (exampleBytes.drop i).take k,
      (exampleBytes.drop i).drop k] hj hH
  rw [h1]
  decide

/-- Claim C9 (counterexample): resume supersession fails on the code: in
`scheduleC9`, stream 2 is still active (not done, one event decoded) when
the final resume opens stream 3, and a chunk then delivered on stream 2
still mutates the session (it fills the narrative slot). -/
theorem claim_C9_counterexample :
    ((runActs scheduleC9).insts.get? 2).map (fun st => (st.done, st.events.length)) =
      some (false, 1) ∧
    (runActs scheduleC9).insts.length = 4 ∧
    jsvIsNullish (runActs scheduleC9).sess.narrative = true ∧
    jsvIsNullish (runActs (scheduleC9 ++ [.deliver 2 narrBytes])).sess.narrative =
      false := by
  decide

/-- Claim C9 (amended): only the *paused* stream is superseded: once a
stream instance has decoded a `hitl` frame (the pause that makes resume
available), its read loop has terminated, and any chunk later delivered on
its transport is a complete no-op on the system.  A different stream still
active when the resume happens is not superseded, as the counterexample
shows. -/
theorem claim_C9 (acts : List Act) (k : Nat) (st : StreamSt) (p : List Char)
    (bytes : List Nat)
    (hg : (runActs acts).insts.get? k = some st)
    (hmem : ((("hitl").data, p)) ∈ st.events)
    (hp : (parseJson p).isSome = true) :
    stepAct (runActs acts) (.deliver k bytes) = runActs acts := by
  have hne : parseJson p ≠ none := fun h => by rw [h] at hp; exact Bool.noConfusion hp
  exact stepAct_deliver_done hg (sysHitlInv_runActs acts k st hg p hmem hne) bytes

/-- Witness for C9: after a submit and a `hitl` chunk on stream 0, a
further delivery on stream 0 is a no-op. -/
theorem claim_C9_witness :
    stepAct (runActs [.submit, .deliver 0 hitlBytes]) (.deliver 0 statusBytes) =
      runActs [.submit, .deliver 0 hitlBytes] :=
  claim_C9 [.submit, .deliver 0 hitlBytes] 0
    ⟨[], [], true, [((("hitl").data), (("\x7b\"a\":1\x7d").data))]⟩
    (("\x7b\"a\":1\x7d").data) statusBytes (by rfl) (by decide) (by decide)

/-- Claim C10: the two `processStream` implementations are equivalent
decoders: on every chunk sequence they extract the identical ordered
`(eventType, payload)` frame trace, and the part_006 session state agrees
with the part_005 one on status, plan, party, narrative, threadId,
hitlData and the persisted key (part_006 additionally clears its extra
`pendingSidebarThread` slot, which part_005 does not have). -/
theorem claim_C10 (chunks : List (List Nat)) (p0 : Option PendingThread) :
    (processStream6 (initSession6 p0) chunks).2.events =
      (processStream initSession chunks).2.events ∧
    projSession6 (processStream6 (initSession6 p0) chunks).1 =
      (processStream initSession chunks).1 := by
  obtain ⟨h1, h2⟩ := runChunks6_proj chunks (initSession6 p0) newStream
  have hinit : projSession6 (initSession6 p0) = initSession := rfl
  rw [hinit] at h1 h2
  exact ⟨congrArg StreamSt.events h2, h1⟩

end DQP
